import Mathlib

/-!
Shallow embedding of the configuration layer of libiocage (the iocage jail
manager rewrite): `BaseConfig` (src/iocage/lib/Config/Jail/BaseConfig.py),
`DefaultsUserData` / `JailConfigDefaults` (src/iocage/lib/Config/Jail/Defaults.py),
`Resource` (src/iocage/lib/Resource.py), `Storage` rename sequences
(src/iocage/lib/Storage.py) and the `Fstab` file model
(src/iocage/lib/Config/Jail/File/Fstab.py).

Modelling conventions:
* Python values flowing through the config store are embedded as `Value`
  (None / str / bool / int / list).
* Python `dict` objects are embedded as association lists with
  insert-or-replace update, matching dict insertion-order semantics where
  order is observable.
* Fallible Python code (KeyError, TypeError, ValueError, InvalidJailName)
  is embedded in `Except`.
* The helper module `iocage.lib.helpers` is not under src/; the helpers
  used by the embedded code (`parse_bool`, `parse_user_input`, `to_string`,
  `validate_name`, `is_uuid`) are modelled from the spec and are marked
  `Modelled from the spec:` in their doc comments.
* `BaseConfig.__getitem_user` first tries `self.__getattribute__(key)`;
  that passthrough only fires for Python attribute names (methods such as
  `keys`, `clone`, ...), never for the configuration keys the claims are
  about, and is not modelled.  The special-properties subsystem
  (`JailConfigProperties`, not under src/) is modelled as having no
  registered special properties, so `is_special_property` is always false.
* `skip_on_error` is accepted by `__setitem__` but never consulted inside
  `BaseConfig` (the setters ignore their `**kwargs`); it is omitted.
-/

namespace LibIocage

/-- Embedded Python value: `None`, `str`, `bool`, `int` or `list`. -/
inductive Value where
  | null : Value
  | str : String → Value
  | bool : Bool → Value
  | int : Int → Value
  | list : List Value → Value

mutual

/-- Decidable equality for `Value` (hand-written: `Value` nests through
`List`). -/
def decEqValue : (a b : Value) → Decidable (a = b)
  | Value.null, Value.null => Decidable.isTrue rfl
  | Value.null, Value.str _ | Value.null, Value.bool _
  | Value.null, Value.int _ | Value.null, Value.list _ =>
    Decidable.isFalse (fun h => Value.noConfusion h)
  | Value.str _, Value.null | Value.str _, Value.bool _
  | Value.str _, Value.int _ | Value.str _, Value.list _ =>
    Decidable.isFalse (fun h => Value.noConfusion h)
  | Value.bool _, Value.null | Value.bool _, Value.str _
  | Value.bool _, Value.int _ | Value.bool _, Value.list _ =>
    Decidable.isFalse (fun h => Value.noConfusion h)
  | Value.int _, Value.null | Value.int _, Value.str _
  | Value.int _, Value.bool _ | Value.int _, Value.list _ =>
    Decidable.isFalse (fun h => Value.noConfusion h)
  | Value.list _, Value.null | Value.list _, Value.str _
  | Value.list _, Value.bool _ | Value.list _, Value.int _ =>
    Decidable.isFalse (fun h => Value.noConfusion h)
  | Value.str a, Value.str b =>
    match decEq a b with
    | Decidable.isTrue h => Decidable.isTrue (congrArg Value.str h)
    | Decidable.isFalse h => Decidable.isFalse (fun hh => h (Value.str.inj hh))
  | Value.bool a, Value.bool b =>
    match decEq a b with
    | Decidable.isTrue h => Decidable.isTrue (congrArg Value.bool h)
    | Decidable.isFalse h => Decidable.isFalse (fun hh => h (Value.bool.inj hh))
  | Value.int a, Value.int b =>
    match decEq a b with
    | Decidable.isTrue h => Decidable.isTrue (congrArg Value.int h)
    | Decidable.isFalse h => Decidable.isFalse (fun hh => h (Value.int.inj hh))
  | Value.list a, Value.list b =>
    match decEqValueList a b with
    | Decidable.isTrue h => Decidable.isTrue (congrArg Value.list h)
    | Decidable.isFalse h => Decidable.isFalse (fun hh => h (Value.list.inj hh))

/-- Decidable equality for lists of `Value`. -/
def decEqValueList : (a b : List Value) → Decidable (a = b)
  | [], [] => Decidable.isTrue rfl
  | [], _ :: _ => Decidable.isFalse (fun h => List.noConfusion h)
  | _ :: _, [] => Decidable.isFalse (fun h => List.noConfusion h)
  | x :: xs, y :: ys =>
    match decEqValue x y, decEqValueList xs ys with
    | Decidable.isTrue h1, Decidable.isTrue h2 =>
      Decidable.isTrue (h1 ▸ h2 ▸ rfl)
    | Decidable.isFalse h1, _ =>
      Decidable.isFalse (fun hh => h1 (List.cons.inj hh).1)
    | _, Decidable.isFalse h2 =>
      Decidable.isFalse (fun hh => h2 (List.cons.inj hh).2)

end

instance : DecidableEq Value := decEqValue

/-- The apostrophe character used by Python `repr` of strings. -/
def pyQuote : Char := Char.ofNat 39

mutual

/-- Python `str()` of an embedded value: `str(None) = "None"`,
`str(True) = "True"`, lists render as their `repr`. String escaping inside
list reprs is not modelled (no claim depends on it). -/
def pyStr : Value → String
  | Value.null => "None"
  | Value.str s => s
  | Value.bool true => "True"
  | Value.bool false => "False"
  | Value.int i => toString i
  | Value.list l => "[" ++ String.intercalate ", " (pyReprList l) ++ "]"

/-- Python `repr()` of each element of a list. -/
def pyReprList : List Value → List String
  | [] => []
  | v :: vs => pyReprV v :: pyReprList vs

/-- Python `repr()` of an embedded value (strings quoted). -/
def pyReprV : Value → String
  | Value.null => "None"
  | Value.str s => String.mk (pyQuote :: s.toList ++ [pyQuote])
  | Value.bool true => "True"
  | Value.bool false => "False"
  | Value.int i => toString i
  | Value.list l => "[" ++ String.intercalate ", " (pyReprList l) ++ "]"

end

instance : Repr Value := ⟨fun v _ => Std.Format.text (pyReprV v)⟩

/-- Python truthiness of an embedded value. -/
def pyTruthy : Value → Bool
  | Value.null => false
  | Value.str s => !(s == "")
  | Value.bool b => b
  | Value.int i => !(i == 0)
  | Value.list l => !(l.isEmpty)

/-- Errors raised by the embedded code.  `keyError` carries the looked-up
key; `invalidJailName` embeds `iocage.lib.errors.InvalidJailName`. -/
inductive CErr where
  | keyError (k : String) : CErr
  | typeError : CErr
  | valueError : CErr
  | indexError : CErr
  | invalidJailName : CErr
  | invalidJailConfigValue : CErr
deriving DecidableEq, Repr

/-- Python `int()` conversion of an embedded value. -/
def pyInt : Value → Except CErr Int
  | Value.int i => Except.ok i
  | Value.bool b => Except.ok (if b then 1 else 0)
  | Value.str s =>
    match s.toInt? with
    | some i => Except.ok i
    | none => Except.error CErr.valueError
  | _ => Except.error CErr.typeError

/-- ASCII lower-casing of one character (Python `str.lower()` restricted
to ASCII, the domain of the canonical encodings). -/
def asciiLower (c : Char) : Char :=
  if 'A' ≤ c && c ≤ 'Z' then Char.ofNat (c.toNat + 32) else c

/-- ASCII `str.lower()`. -/
def lowerStr (s : String) : String := String.mk (s.toList.map asciiLower)

/-- Modelled from the spec: `iocage.lib.helpers.parse_bool` is not under
src/.  The spec (§3, §4.1) says boolean properties are read from canonical
encodings; a bool is returned as-is, the strings yes/true/on and
no/false/off (case-insensitive) decode to booleans, anything else raises
TypeError. -/
def parse_bool : Value → Except CErr Bool
  | Value.bool b => Except.ok b
  | Value.str s =>
    let ls := lowerStr s
    if ls == "yes" || ls == "true" || ls == "on" then Except.ok true
    else if ls == "no" || ls == "false" || ls == "off" then Except.ok false
    else Except.error CErr.typeError
  | _ => Except.error CErr.typeError

/-- Modelled from the spec: `iocage.lib.helpers.parse_user_input` is not
under src/.  The spec (§4.1) says `set` "normalizes value through a generic
user-input parser (interprets canonical boolean/int/string encodings)" and
(§7) that null is a valid value: canonical boolean strings decode via
`parse_bool`, the string none (case-insensitive) decodes to `None`, and
every other value passes through unchanged. -/
def parse_user_input (v : Value) : Value :=
  match parse_bool v with
  | Except.ok b => Value.bool b
  | Except.error _ =>
    match v with
    | Value.str s => if lowerStr s == "none" then Value.null else Value.str s
    | w => w

/-- Modelled from the spec: `iocage.lib.helpers.to_string` is not under
src/.  The spec (§3) says booleans serialize to fixed strings and
lists to space-joined strings; the boolean/None encodings are passed
explicitly (`_set_vnet` passes on/off). -/
def to_string (v : Value) (t : String) (f : String) (n : String) : String :=
  match v with
  | Value.null => n
  | Value.bool b => if b then t else f
  | Value.str s => s
  | Value.int i => toString i
  | Value.list l => String.intercalate " " (l.map pyStr)

/-- Modelled from the spec: `iocage.lib.helpers.validate_name` is not under
src/.  The spec (§4.1) says the identity "validates against an
allowed-character set (alphanumerics, `.`, `_`, `-`)". -/
def validate_name (s : String) : Bool :=
  !(s.toList.isEmpty) &&
    s.toList.all (fun c => c.isAlphanum || c == '.' || c == '_' || c == '-')

/-- Hexadecimal digit test used by the UUID shape check. -/
def isHexDigit (c : Char) : Bool :=
  c.isDigit || ('a' ≤ c && c ≤ 'f') || ('A' ≤ c && c ≤ 'F')

/-- Split a character list at every separator matching `p` (Python
`str.split(sep)` semantics: never returns an empty list, keeps empty
segments). -/
def splitP (p : Char → Bool) : List Char → List (List Char)
  | [] => [[]]
  | c :: cs =>
    if p c then [] :: splitP p cs
    else
      match splitP p cs with
      | [] => [[c]]
      | h :: t => (c :: h) :: t

/-- Whitespace for Python `str.strip()` / `str.split()` (the ASCII
whitespace characters; the rare `\x1c`..`\x1f` forms are not modelled). -/
def isWs (c : Char) : Bool :=
  c == ' ' || c == '\t' || c == '\n' || c == '\r' || c == '\x0b' || c == '\x0c'

/-- Python `str.split()` with no argument: split on whitespace runs,
discarding empty fragments. -/
def pySplitWsL (l : List Char) : List (List Char) :=
  (splitP isWs l).filter (fun w => !w.isEmpty)

/-- Modelled from the spec: `iocage.lib.helpers.is_uuid` is not under src/.
The spec (§4.1) says the identity may alternatively match "a UUID shape":
five dash-separated hexadecimal groups of sizes 8-4-4-4-12. -/
def is_uuid (s : String) : Bool :=
  match splitP (fun c => c == '-') s.toList with
  | [a, b, c, d, e] =>
    a.length == 8 && b.length == 4 && c.length == 4 && d.length == 4 &&
    e.length == 12 &&
    (a ++ b ++ c ++ d ++ e).all isHexDigit
  | _ => false

/-- A character rejected by `_set_id`'s regular expression
`([^A-z0-9\._\-]|\^)` (BaseConfig.py line 170).  The class `A-z` is the
ASCII range 65..122, so it also admits the punctuation between `Z` and `a`;
the alternative makes `^` invalid again. -/
def idInvalidChar (c : Char) : Bool :=
  c == '^' ||
    !(('A' ≤ c && c ≤ 'z') || ('0' ≤ c && c ≤ '9') ||
      c == '.' || c == '_' || c == '-')

/-- `re.findall` of the invalid-character pattern over a name. -/
def findInvalidChars (s : String) : List Char :=
  s.toList.filter idInvalidChar

/-- Association-list lookup (Python `dict.__getitem__`, as an `Option`). -/
def alGet : List (String × Value) → String → Option Value
  | [], _ => none
  | p :: m, k => if p.1 == k then some p.2 else alGet m k

/-- Association-list membership (Python `key in dict`). -/
def alHas : List (String × Value) → String → Bool
  | [], _ => false
  | p :: m, k => p.1 == k || alHas m k

/-- Association-list insert-or-replace (Python `dict.__setitem__`): an
existing key keeps its position and its value is replaced, a new key is
appended, matching dict insertion order (the stores built here are
duplicate-free). -/
def alSet : List (String × Value) → String → Value → List (String × Value)
  | [], k, v => [(k, v)]
  | p :: m, k, v => if p.1 == k then (k, v) :: m else p :: alSet m k v

/-- Association-list removal (Python `dict.__delitem__`, total form). -/
def alDel (m : List (String × Value)) (k : String) : List (String × Value) :=
  m.filter (fun p => !(p.1 == k))

/-- `BaseConfig`: the raw property store (`self.data`). -/
structure BC where
  data : List (String × Value)
deriving DecidableEq, Repr

/-- Raw read of `self.data[key]` (KeyError when absent). -/
def dataGet (c : BC) (k : String) : Except CErr Value :=
  match alGet c.data k with
  | some v => Except.ok v
  | none => Except.error (CErr.keyError k)

/-- `BaseConfig._get_id` (line 151): `str(self.data["id"])`. -/
def getId (c : BC) : Except CErr Value :=
  match alGet c.data "id" with
  | some v => Except.ok (Value.str (pyStr v))
  | none => Except.error (CErr.keyError "id")

/-- `BaseConfig._get_basejail` (line 276):
`parse_bool(self.data["basejail"]) is True`. -/
def getBasejailV (c : BC) : Except CErr Value :=
  match alGet c.data "basejail" with
  | none => Except.error (CErr.keyError "basejail")
  | some v =>
    match parse_bool v with
    | Except.error e => Except.error e
    | Except.ok b => Except.ok (Value.bool (b == true))

/-- `BaseConfig._get_clonejail` (line 282). -/
def getClonejailV (c : BC) : Except CErr Value :=
  match alGet c.data "clonejail" with
  | none => Except.error (CErr.keyError "clonejail")
  | some v =>
    match parse_bool v with
    | Except.error e => Except.error e
    | Except.ok b => Except.ok (Value.bool (b == true))

/-- `BaseConfig._get_type` (line 195): derived from the `basejail` and
`clonejail` flags, read through the property store (their getters). -/
def getType (c : BC) : Except CErr Value :=
  match getBasejailV c with
  | Except.error e => Except.error e
  | Except.ok b =>
    if pyTruthy b then Except.ok (Value.str "basejail")
    else
      match getClonejailV c with
      | Except.error e => Except.error e
      | Except.ok cj =>
        if pyTruthy cj then Except.ok (Value.str "clonejail")
        else Except.ok (Value.str "jail")

/-- `BaseConfig._get_priority` (line 219): `int(self.data["priority"])`. -/
def getPriority (c : BC) : Except CErr Value :=
  match alGet c.data "priority" with
  | none => Except.error (CErr.keyError "priority")
  | some v =>
    match pyInt v with
    | Except.error e => Except.error e
    | Except.ok i => Except.ok (Value.int i)

/-- `BaseConfig._get_defaultrouter` / `_get_defaultrouter6`
(lines 292, 305). -/
def getRouter (c : BC) (k : String) : Except CErr Value :=
  match alGet c.data k with
  | none => Except.error (CErr.keyError k)
  | some v =>
    if !(v == Value.str "none") && !(v == Value.null) then
      Except.ok (Value.str (pyStr v))
    else
      Except.ok Value.null

/-- `BaseConfig._get_vnet` (line 318):
`parse_user_input(self.data["vnet"]) is True`. -/
def getVnet (c : BC) : Except CErr Value :=
  match alGet c.data "vnet" with
  | none => Except.error (CErr.keyError "vnet")
  | some v => Except.ok (Value.bool (parse_user_input v == Value.bool true))

/-- `BaseConfig.__getitem_user` (line 430): getter-method dispatch, then
the plain data attribute, then KeyError.  The getters embedded here are
the ones reachable from the claims (`_get_id`/`_get_name`/`_get_uuid`,
`_get_type`, `_get_priority`, `_get_basejail`, `_get_clonejail`,
`_get_defaultrouter`, `_get_defaultrouter6`, `_get_vnet`).  Simplified
relative to the source: the remaining getters (`tag`, `tags`,
`cloned_release`, `basejail_type`, `login_flags`, `host_hostuuid`,
`jail_zfs`, `jail_zfs_dataset`) and the `__getattribute__` passthrough
for non-data attributes are omitted — none of those keys is mentioned by
a claim, so they resolve as plain data attributes here. -/
def getitemUser (c : BC) (k : String) : Except CErr Value :=
  if k == "id" || k == "name" || k == "uuid" then getId c
  else if k == "type" then getType c
  else if k == "priority" then getPriority c
  else if k == "basejail" then getBasejailV c
  else if k == "clonejail" then getClonejailV c
  else if k == "defaultrouter" then getRouter c "defaultrouter"
  else if k == "defaultrouter6" then getRouter c "defaultrouter6"
  else if k == "vnet" then getVnet c
  else dataGet c k

/-- `BaseConfig.__getitem__` (line 455): `__getitem_user`, with the
KeyError re-labelled ("Item not found").  The error payload is the same
constructor here, so this is `getitemUser`. -/
def getitemC (c : BC) (k : String) : Except CErr Value :=
  getitemUser c k

/-- `BaseConfig.stringify` (line 557):
`to_string(parse_user_input(value))` with the default encodings. -/
def stringify (v : Value) : String :=
  to_string (parse_user_input v) "yes" "no" "-"

/-- Modelled from the spec: `iocage.lib.helpers.parse_list` is not under
src/.  The spec (§3) reads list-shaped properties from "lists as
space-joined strings": a stored list passes through, a string splits on
whitespace, and other shapes are type-incompatible
(`InvalidPropertyValue`: "non-list/non-string for a list-shaped
property"). -/
def parse_list (v : Value) : Except CErr (List Value) :=
  match v with
  | Value.list l => Except.ok l
  | Value.str s =>
    Except.ok ((pySplitWsL s.toList).map (fun w => Value.str (String.mk w)))
  | _ => Except.error CErr.typeError

/-- Python `" ".join(l)` over embedded values: `TypeError` on a
non-string element. -/
def joinSpace (l : List Value) : Except CErr String :=
  if l.all (fun v => match v with | Value.str _ => true | _ => false) then
    Except.ok (String.intercalate " " (l.map pyStr))
  else Except.error CErr.typeError

/-- `BaseConfig._set_basejail` (line 279). -/
def setBasejailRaw (c : BC) (v : Value) : BC :=
  { data := alSet c.data "basejail" (Value.str (stringify v)) }

/-- `BaseConfig._set_clonejail` (line 285). -/
def setClonejailRaw (c : BC) (v : Value) : BC :=
  { data := alSet c.data "clonejail" (Value.str (stringify v)) }

/-- `BaseConfig._set_defaultrouter` / `_set_defaultrouter6`
(lines 296, 309): `None` becomes the literal string none. -/
def setRouterRaw (c : BC) (k : String) (v : Value) : BC :=
  { data := alSet c.data k (if v == Value.null then Value.str "none" else v) }

/-- `BaseConfig._set_id` (line 154): no-op when the new name equals the
current identity; `None` clears the identity; otherwise the name is
validated by the invalid-character pattern, then `validate_name`, then
`is_uuid`, and `InvalidJailName` is raised on failure.  `re.findall` on a
non-string raises TypeError. -/
def setId (c : BC) (name : Value) : Except CErr BC :=
  if (match getitemC c "id" with
      | Except.ok v => v == name
      | Except.error _ => false) then
    Except.ok c
  else if name == Value.null then
    Except.ok { data := alSet c.data "id" Value.null }
  else
    match name with
    | Value.str s =>
      if !((findInvalidChars s).isEmpty) then Except.error CErr.invalidJailName
      else if validate_name s then
        Except.ok { data := alSet c.data "id" (Value.str s) }
      else if is_uuid s then
        Except.ok { data := alSet c.data "id" (Value.str s) }
      else Except.error CErr.invalidJailName
    | _ => Except.error CErr.typeError

/-- `BaseConfig._set_type` (line 204).  The writes to `basejail` and
`clonejail` go through `__setitem__`, which parses the boolean and
dispatches `_set_basejail`/`_set_clonejail`; those two steps are inlined
here. -/
def setType (c : BC) (v : Value) : Except CErr BC :=
  if v == Value.str "basejail" then
    let c1 := setBasejailRaw c (parse_user_input (Value.bool true))
    let c2 := setClonejailRaw c1 (parse_user_input (Value.bool false))
    Except.ok { data := alSet c2.data "type" (Value.str "jail") }
  else if v == Value.str "clonejail" then
    let c1 := setBasejailRaw c (parse_user_input (Value.bool false))
    let c2 := setClonejailRaw c1 (parse_user_input (Value.bool true))
    Except.ok { data := alSet c2.data "type" (Value.str "jail") }
  else
    Except.ok { data := alSet c.data "type" v }

/-- `BaseConfig._set_legacy` (line 145): assigns the plain `legacy`
*attribute* — `parse_bool` of the value, with its `TypeError` caught
(`legacy = False`) — and never touches `self.data`; the attribute lives
outside the modelled store, so the store state is returned unchanged and
no error escapes. -/
def setLegacy (c : BC) (_v : Value) : BC := c

/-- `BaseConfig._set_tags` (line 259): serialize the (parsed) value with
`helpers.to_string`'s default encodings into `tags`, then drop a legacy
`tag` entry when one exists (the removal is the identity otherwise). -/
def setTags (c : BC) (v : Value) : BC :=
  { data := alDel (alSet c.data "tags"
      (Value.str (to_string v "yes" "no" "-"))) "tag" }

/-- `BaseConfig._set_tag` (line 236): with a legacy `tag` present or no
`tags` entry, the raw value is stored under the legacy `tag` key;
otherwise the value is moved to the front of the parsed `tags` list
(removing its first existing occurrence) and the list re-serialized into
`tags`. -/
def setTag (c : BC) (v : Value) : Except CErr BC :=
  if alHas c.data "tag" || !(alHas c.data "tags") then
    Except.ok { data := alSet c.data "tag" v }
  else
    match alGet c.data "tags" with
    | none => Except.error (CErr.keyError "tags")
    | some tv =>
      match parse_list tv with
      | Except.error e => Except.error e
      | Except.ok tags =>
        Except.ok { data := alSet c.data "tags" (Value.str (to_string (Value.list (v :: (if tags.contains v then tags.erase v else tags))) "yes" "no" "-")) }

/-- `BaseConfig._set_login_flags` (line 395): `None` deletes the entry
(the `KeyError` of an absent key is swallowed), a list is space-joined
(`TypeError` on a non-string element), a string is stored verbatim, and
anything else raises `InvalidJailConfigValue`. -/
def setLoginFlags (c : BC) (v : Value) : Except CErr BC :=
  match v with
  | Value.null => Except.ok { data := alDel c.data "login_flags" }
  | Value.list l =>
    (match joinSpace l with
     | Except.error e => Except.error e
     | Except.ok s =>
       Except.ok { data := alSet c.data "login_flags" (Value.str s) })
  | Value.str s =>
    Except.ok { data := alSet c.data "login_flags" (Value.str s) }
  | _ => Except.error CErr.invalidJailConfigValue

/-- `BaseConfig._set_jail_zfs` (line 353): the value is passed through the
user-input parser once more; `None` deletes the entry with a bare `del`
(KeyError when the key is absent), anything else is serialized with the
on/off encodings. -/
def setJailZfs (c : BC) (v : Value) : Except CErr BC :=
  if parse_user_input v == Value.null then
    (if alHas c.data "jail_zfs" then
      Except.ok { data := alDel c.data "jail_zfs" }
     else Except.error (CErr.keyError "jail_zfs"))
  else
    Except.ok { data := alSet c.data "jail_zfs" (Value.str (to_string (parse_user_input v) "on" "off" "-")) }

/-- `BaseConfig._set_jail_zfs_dataset` (line 339): a string becomes a
singleton list; the list is space-joined (`TypeError` on a non-string
element, and on a non-list non-string value) and stored. -/
def setJailZfsDataset (c : BC) (v : Value) : Except CErr BC :=
  match v with
  | Value.str s =>
    Except.ok { data := alSet c.data "jail_zfs_dataset" (Value.str s) }
  | Value.list l =>
    (match joinSpace l with
     | Except.error e => Except.error e
     | Except.ok s =>
       Except.ok { data := alSet c.data "jail_zfs_dataset" (Value.str s) })
  | _ => Except.error CErr.typeError

/-- `BaseConfig.__setitem__` (line 467): the value is normalized through
`parse_user_input`, a registered `_set_<key>` setter is dispatched, and
otherwise the parsed value is written to `self.data` directly.  Every
`_set_` method defined by `BaseConfig` is dispatched here (`_set_priority`
and `_set_vnet` inlined; the others by name). -/
def setitemC (c : BC) (k : String) (v : Value) : Except CErr BC :=
  let pv := parse_user_input v
  if k == "id" then setId c pv
  else if k == "type" then setType c pv
  else if k == "priority" then
    Except.ok { data := alSet c.data "priority" (Value.str (pyStr pv)) }
  else if k == "basejail" then Except.ok (setBasejailRaw c pv)
  else if k == "clonejail" then Except.ok (setClonejailRaw c pv)
  else if k == "defaultrouter" then Except.ok (setRouterRaw c "defaultrouter" pv)
  else if k == "defaultrouter6" then
    Except.ok (setRouterRaw c "defaultrouter6" pv)
  else if k == "vnet" then
    Except.ok { data := alSet c.data "vnet" (Value.str (to_string pv "on" "off" "-")) }
  else if k == "legacy" then Except.ok (setLegacy c pv)
  else if k == "tags" then Except.ok (setTags c pv)
  else if k == "tag" then setTag c pv
  else if k == "login_flags" then setLoginFlags c pv
  else if k == "jail_zfs" then setJailZfs c pv
  else if k == "jail_zfs_dataset" then setJailZfsDataset c pv
  else
    Except.ok { data := alSet c.data k pv }

/-- The keys whose `__setitem__` write set is not just the key itself:
`_set_type` writes `basejail`, `clonejail` and `type`; `_set_tags` and
`_set_tag` touch the `tags`/`tag` pair. -/
def writesOf (k : String) : List String :=
  if k == "type" then ["basejail", "clonejail", "type"]
  else if k == "tags" then ["tags", "tag"]
  else if k == "tag" then ["tag", "tags"]
  else [k]

/-- The value `clone`'s loop passes to `__setitem__` for one pair:
incoming `id`/`name`/`uuid` values are overridden by the current identity
`cur` when it `is not None`. -/
def cloneValue (cur : Value) (kv : String × Value) : Value :=
  if (kv.1 == "id" || kv.1 == "name" || kv.1 == "uuid") &&
      !(cur == Value.null) then
    cur
  else kv.2

/-- The loop body of `BaseConfig.clone`: apply each pair through
`__setitem__`. -/
def cloneFold (cur : Value) : BC → List (String × Value) → Except CErr BC
  | c, [] => Except.ok c
  | c, kv :: rest =>
    match setitemC c kv.1 (cloneValue cur kv) with
    | Except.error e => Except.error e
    | Except.ok c' => cloneFold cur c' rest

/-- `BaseConfig.clone` (line 91): short-circuit on empty input; read the
current identity once (`self["id"]`); apply each pair. -/
def cloneC (c : BC) (d : List (String × Value)) : Except CErr BC :=
  if d.isEmpty then Except.ok c
  else
    match getitemC c "id" with
    | Except.error e => Except.error e
    | Except.ok cur => cloneFold cur c d

/-- The string fingerprint taken by `BaseConfig.set` (line 490):
`str(self.__getitem_user(key)).__hash__()`, `None` on any exception.
Python string hashing is modelled as the string itself (hash collisions
between distinct fingerprints are not modelled). -/
def fingerprint (c : BC) (k : String) : Option String :=
  match getitemUser c k with
  | Except.ok v => some (pyStr v)
  | Except.error _ => none

/-- `BaseConfig.set` (line 490): record presence in `user_data`
(`self.data` for `BaseConfig`) and the fingerprint before and after the
assignment, and report whether either changed. -/
def setC (c : BC) (k : String) (v : Value) : Except CErr (Bool × BC) :=
  let existedBefore := alHas c.data k
  let hashBefore := fingerprint c k
  match setitemC c k v with
  | Except.error e => Except.error e
  | Except.ok c' =>
    let existsAfter := alHas c'.data k
    let hashAfter := fingerprint c' k
    if existedBefore != existsAfter then Except.ok (true, c')
    else Except.ok (!(hashBefore == hashAfter), c')

/-- The keys with a registered `_set_<key>` setter in `BaseConfig` (the
dispatch table of `setitemC`). -/
def hasSetterKey (k : String) : Bool :=
  k == "id" || k == "type" || k == "priority" || k == "basejail" ||
    k == "clonejail" || k == "defaultrouter" || k == "defaultrouter6" ||
    k == "vnet" || k == "legacy" || k == "tags" || k == "tag" ||
    k == "login_flags" || k == "jail_zfs" || k == "jail_zfs_dataset"

/-- The last value a mapping associates with a key (the effective one when
the mapping's pairs are applied in order). -/
def lookupLast : List (String × Value) → String → Option Value
  | [], _ => none
  | p :: d, k =>
    match lookupLast d k with
    | some w => some w
    | none => if p.1 == k then some p.2 else none

/-! ## Defaults layer (src/iocage/lib/Config/Jail/Defaults.py)

`DefaultsUserData` subclasses `dict`.  Its `user_properties` set is
declared at class level (`user_properties: set = set()`, line 31) and is
never rebound per instance, so every instance mutates the one shared set.
The embedding therefore models a *world*: the shared class-level set plus
the list of live instances. -/

/-- Membership in the shared `user_properties` set (Python `in` /
`set.add` pre-check). -/
def memStr (l : List String) (k : String) : Bool :=
  l.any (fun x => x == k)

/-- One `DefaultsUserData` instance: its dict contents (initialized from
`defaults` by `dict.__init__(self, defaults)`) and its `defaults`
attribute. -/
structure DUD where
  store : List (String × Value)
  defaults : List (String × Value)
deriving DecidableEq, Repr

/-- The world of `DefaultsUserData` instances: the shared class-level
`user_properties` set (modelled as a duplicate-free list) and the
instances, addressed by position. -/
structure DUDWorld where
  userProps : List String
  insts : List DUD
deriving DecidableEq, Repr

/-- `DefaultsUserData.__init__` (line 33): the new instance starts with a
copy of its defaults; the shared `user_properties` set is untouched. -/
def dudInit (w : DUDWorld) (defaults : List (String × Value)) : DUDWorld :=
  { w with insts := w.insts ++ [{ store := defaults, defaults := defaults }] }

/-- Replace instance `i` in the world. -/
def dudUpdateInst (w : DUDWorld) (i : Nat) (inst : DUD) : DUDWorld :=
  { w with insts := w.insts.set i inst }

/-- `DefaultsUserData.__setitem__` (line 37): write the dict entry of
instance `i` and add the key to the *shared* `user_properties` set. -/
def dudSetItem (w : DUDWorld) (i : Nat) (k : String) (v : Value) : DUDWorld :=
  match w.insts.get? i with
  | none => w
  | some inst =>
    let w' := dudUpdateInst w i { inst with store := alSet inst.store k v }
    if memStr w'.userProps k then w'
    else { w' with userProps := w'.userProps ++ [k] }

/-- Python `set.remove` on the shared `user_properties` set: KeyError when
the element is absent. -/
def dudRemoveUserProp (w : DUDWorld) (k : String) : Except CErr DUDWorld :=
  if memStr w.userProps k then
    Except.ok { w with userProps := w.userProps.filter (fun x => !(x == k)) }
  else
    Except.error (CErr.keyError k)

/-- `DefaultsUserData.__delitem__` (line 41).  For a key with a registered
default the value is re-assigned through `self[key] = self.defaults[key]`
(which re-adds the key to `user_properties`) and then removed from
`user_properties`.  For a key with *no* default the source executes
`del self[key]`, which re-invokes `__delitem__` itself — unbounded
recursion.  The recursion is embedded with explicit fuel; `none` means the
call never returns (Python: `RecursionError`). -/
def dudDelItem : Nat → DUDWorld → Nat → String → Option (Except CErr DUDWorld)
  | 0, w, i, k =>
    match w.insts.get? i with
    | none => some (Except.error CErr.indexError)
    | some inst =>
      match alGet inst.defaults k with
      | some dv => some (dudRemoveUserProp (dudSetItem w i k dv) k)
      | none => none
  | fuel + 1, w, i, k =>
    match w.insts.get? i with
    | none => some (Except.error CErr.indexError)
    | some inst =>
      match alGet inst.defaults k with
      | some dv => some (dudRemoveUserProp (dudSetItem w i k dv) k)
      | none =>
        match dudDelItem fuel w i k with
        | none => none
        | some (Except.error e) => some (Except.error e)
        | some (Except.ok w') => some (dudRemoveUserProp w' k)

/-- The loop of `exclusive_user_data`: collect `(key, self[key])` for each
key of the shared set, raising KeyError when this instance's dict lacks
one. -/
def exclusiveFold (store : List (String × Value)) :
    List (String × Value) → List String → Except CErr (List (String × Value))
  | acc, [] => Except.ok acc
  | acc, k :: ks =>
    match alGet store k with
    | some v => exclusiveFold store (acc ++ [(k, v)]) ks
    | none => Except.error (CErr.keyError k)

/-- `DefaultsUserData.exclusive_user_data` (line 48): the projection of
instance `i`'s dict onto the *shared* `user_properties` set; looking up a
shared key that is missing from this instance's dict raises KeyError. -/
def exclusiveUserData (w : DUDWorld) (i : Nat) :
    Except CErr (List (String × Value)) :=
  match w.insts.get? i with
  | none => Except.error CErr.indexError
  | some inst => exclusiveFold inst.store [] w.userProps

/-- `JailConfigDefaults.DEFAULTS` (Defaults.py line 60).  The source dict
literal lists `"priority": 0` twice; Python keeps a single entry. -/
def DEFAULTS : List (String × Value) := [
  ("id", Value.null),
  ("release", Value.null),
  ("boot", Value.bool false),
  ("priority", Value.int 0),
  ("legacy", Value.bool false),
  ("basejail", Value.bool false),
  ("clonejail", Value.bool false),
  ("defaultrouter", Value.null),
  ("defaultrouter6", Value.null),
  ("mac_prefix", Value.str "02ff60"),
  ("vnet", Value.bool false),
  ("interfaces", Value.list []),
  ("ip4", Value.str "new"),
  ("ip4_saddrsel", Value.int 1),
  ("ip4_addr", Value.null),
  ("ip6", Value.str "new"),
  ("ip6_saddrsel", Value.int 1),
  ("ip6_addr", Value.null),
  ("resolver", Value.str "/etc/resolv.conf"),
  ("host_domainname", Value.str "none"),
  ("devfs_ruleset", Value.int 4),
  ("enforce_statfs", Value.int 2),
  ("children_max", Value.int 0),
  ("allow_set_hostname", Value.int 1),
  ("allow_sysvipc", Value.int 0),
  ("allow_raw_sockets", Value.int 0),
  ("allow_chflags", Value.int 0),
  ("allow_mount", Value.int 0),
  ("allow_mount_devfs", Value.int 0),
  ("allow_mount_nullfs", Value.int 0),
  ("allow_mount_procfs", Value.int 0),
  ("allow_mount_zfs", Value.int 0),
  ("allow_mount_tmpfs", Value.int 0),
  ("allow_quotas", Value.int 0),
  ("allow_socket_af", Value.int 0),
  ("sysvmsg", Value.str "new"),
  ("sysvsem", Value.str "new"),
  ("sysvshm", Value.str "new"),
  ("exec_clean", Value.int 1),
  ("exec_fib", Value.int 1),
  ("exec_prestart", Value.str "/usr/bin/true"),
  ("exec_start", Value.str "/bin/sh /etc/rc"),
  ("exec_poststart", Value.str "/usr/bin/true"),
  ("exec_prestop", Value.str "/usr/bin/true"),
  ("exec_stop", Value.str "/bin/sh /etc/rc.shutdown"),
  ("exec_poststop", Value.str "/usr/bin/true"),
  ("exec_timeout", Value.str "60"),
  ("stop_timeout", Value.str "30"),
  ("mount_procfs", Value.str "0"),
  ("mount_devfs", Value.str "1"),
  ("mount_fdescfs", Value.str "1"),
  ("securelevel", Value.str "2"),
  ("tags", Value.list []),
  ("template", Value.bool false),
  ("jail_zfs", Value.bool false)]

/-! ## Resource dataset identity (src/iocage/lib/Resource.py) -/

/-- A resolved ZFS dataset handle (the collaborator interface only exposes
its name to the embedded code). -/
structure DatasetHandle where
  name : String
deriving DecidableEq, Repr

/-- Errors raised by the `Resource` identity accessors: the spec calls the
"Could not determine dataset_name" AttributeError `IdentityUnresolved`. -/
inductive RErr where
  | identityUnresolved : RErr
deriving DecidableEq, Repr

/-- The identity-relevant state of a `Resource`: the `_dataset` attribute
(`none` = attribute not set) and the `_dataset_name` attribute. -/
structure ResourceSt where
  dsHandle : Option DatasetHandle
  dsName : Option String
deriving DecidableEq, Repr

/-- The `dataset_name` setter (Resource.py line 177): it assigns
`self._dataset_name` and touches nothing else — in particular it does
*not* delete a cached `self._dataset` handle. -/
def rsetDatasetName (r : ResourceSt) (v : String) : ResourceSt :=
  { r with dsName := some v }

/-- `Resource._set_dataset` (line 195): delete `self._dataset_name` (if
set) and assign the handle. -/
def rsetDataset (_r : ResourceSt) (v : DatasetHandle) : ResourceSt :=
  { dsHandle := some v, dsName := none }

/-- `Resource._assigned_dataset_name` / the `dataset_name` getter
(lines 156-175): prefer the explicitly assigned name, fall back to the
resolved handle's name, otherwise raise. -/
def assignedDatasetName (r : ResourceSt) : Except RErr String :=
  match r.dsName with
  | some n => Except.ok n
  | none =>
    match r.dsHandle with
    | some d => Except.ok d.name
    | none => Except.error RErr.identityUnresolved

/-- The `dataset` getter (line 182): return the cached handle if present,
otherwise resolve `dataset_name` through the ZFS collaborator (`zfs`) and
cache the result. -/
def resourceDataset (zfs : String → DatasetHandle) (r : ResourceSt) :
    Except RErr (DatasetHandle × ResourceSt) :=
  match r.dsHandle with
  | some d => Except.ok (d, r)
  | none => do
    let n ← assignedDatasetName r
    let d := zfs n
    Except.ok (d, { r with dsHandle := some d })

/-! ## Storage rename sequences (src/iocage/lib/Storage.py lines 68-128) -/

/-- The begin/end/fail lifecycle events emitted by the two rename
sub-sequences (`ZFSDatasetRename`, `ZFSSnapshotRename`). -/
inductive SEvent where
  | dsBegin : SEvent
  | dsEnd : SEvent
  | dsFail (msg : String) : SEvent
  | snapBegin : SEvent
  | snapEnd : SEvent
  | snapFail (msg : String) : SEvent
deriving DecidableEq, Repr

/-- Decidable equality for `Except` results (not provided by core). -/
instance {ε α : Type} [DecidableEq ε] [DecidableEq α] :
    DecidableEq (Except ε α) := fun a b =>
  match a, b with
  | Except.ok x, Except.ok y =>
    match decEq x y with
    | Decidable.isTrue h => Decidable.isTrue (congrArg Except.ok h)
    | Decidable.isFalse h => Decidable.isFalse (fun hh => h (Except.ok.inj hh))
  | Except.error e, Except.error f =>
    match decEq e f with
    | Decidable.isTrue h => Decidable.isTrue (congrArg Except.error h)
    | Decidable.isFalse h =>
      Decidable.isFalse (fun hh => h (Except.error.inj hh))
  | Except.ok _, Except.error _ =>
    Decidable.isFalse (fun h => Except.noConfusion h)
  | Except.error _, Except.ok _ =>
    Decidable.isFalse (fun h => Except.noConfusion h)

/-- Outcomes of the ZFS primitives the rename sequences invoke, supplied
by the environment (the ZFS bindings are external collaborators). -/
structure ZfsEnv where
  jailsRootName : String
  datasetRenameOutcome : Except String Unit
  rootHasOrigin : Bool
  getSnapshotOutcome : Except String Unit
  snapParentName : String
  snapshotRenameOutcome : Except String Unit
deriving DecidableEq, Repr

/-- The jail state the rename sequences mutate. -/
structure StorageSt where
  jailDatasetName : String
deriving DecidableEq, Repr

/-- `Storage._rename_dataset` (line 79): yield the begin event, attempt
the dataset rename; on success update the in-memory name and yield the
end event; on `BaseException` yield the fail event — the exception is
consumed by the `except` block and the generator simply ends. -/
def renameDatasetPhase (env : ZfsEnv) (st : StorageSt) (newName : String) :
    List SEvent × StorageSt :=
  let newDatasetName := env.jailsRootName ++ "/" ++ newName
  match env.datasetRenameOutcome with
  | Except.ok _ =>
    ([SEvent.dsBegin, SEvent.dsEnd], { jailDatasetName := newDatasetName })
  | Except.error e => ([SEvent.dsBegin, SEvent.dsFail e], st)

/-- `Storage._rename_snapshot` (line 104): return early when the root
dataset has no `origin` property; `self.zfs.get_snapshot` is invoked
*outside* the try block, so its failure escapes the generator (the third
component); the snapshot rename itself is inside the try block and its
failure is reported via the fail event and consumed. -/
def renameSnapshotPhase (env : ZfsEnv) (st : StorageSt) :
    List SEvent × StorageSt × Option String :=
  if !env.rootHasOrigin then ([], st, none)
  else
    match env.getSnapshotOutcome with
    | Except.error e => ([], st, some e)
    | Except.ok _ =>
      match env.snapshotRenameOutcome with
      | Except.ok _ => ([SEvent.snapBegin, SEvent.snapEnd], st, none)
      | Except.error e => ([SEvent.snapBegin, SEvent.snapFail e], st, none)

/-- `Storage.rename` (line 68): drive the dataset-rename sub-sequence,
then the snapshot-rename sub-sequence, concatenating their events.  The
third component is the exception escaping to the caller, if any. -/
def storageRename (env : ZfsEnv) (st : StorageSt) (newName : String) :
    List SEvent × StorageSt × Option String :=
  let p1 := renameDatasetPhase env st newName
  let p2 := renameSnapshotPhase env p1.2
  (p1.1 ++ p2.1, p2.2.1, p2.2.2)

/-! ## Fstab (src/iocage/lib/Config/Jail/File/Fstab.py)

Python string primitives used by `Fstab.parse_lines` (`str.split`,
`str.strip`, `str.startswith`) are modelled at the character-list level so
that their semantics are explicit. -/

/-- Python `str.strip()` on a character list. -/
def stripWsL (l : List Char) : List Char :=
  ((l.dropWhile isWs).reverse.dropWhile isWs).reverse

/-- The characters stripped by `comment.strip("# ")`. -/
def hashSpace (c : Char) : Bool := c == '#' || c == ' '

/-- Python `str.strip("# ")` on a character list. -/
def stripHashSpaceL (l : List Char) : List Char :=
  ((l.dropWhile hashSpace).reverse.dropWhile hashSpace).reverse

/-- `_is_comment_line` (Fstab.py line 372): the stripped line starts with
`#`. -/
def isCommentChars (l : List Char) : Bool :=
  match stripWsL l with
  | [] => false
  | c :: _ => c == '#'

/-- `_is_empty_line` (line 376): the stripped line is empty. -/
def isEmptyChars (l : List Char) : Bool :=
  match stripWsL l with
  | [] => true
  | _ :: _ => false

/-- Python `input_text.split("\n")`. -/
def splitNl (l : List Char) : List (List Char) :=
  splitP (fun c => c == '\n') l

/-- Python `line.split("#", maxsplit=1)`: `none` when the line has no
`#` (the tuple unpacking then raises ValueError). -/
def splitFirstHash : List Char → Option (List Char × List Char)
  | [] => none
  | c :: cs =>
    if c == '#' then some ([], cs)
    else
      match splitFirstHash cs with
      | none => none
      | some (a, b) => some (c :: a, b)

/-- Join character lists with a separator character (used to model
`"\n".join` / `"\t".join`). -/
def joinWith (c : Char) : List (List Char) → List Char
  | [] => []
  | [l] => l
  | l :: l2 :: ls => l ++ c :: joinWith c (l2 :: ls)

/-- An fstab line as stored by `Fstab`: a mount entry (`FstabLine`), a
verbatim comment/blank line (`FstabCommentLine`), or the auto-creation
placeholder (`FstabAutoPlaceholderLine`). -/
inductive FLine where
  | mount (source destination fsType options dump passnum : String)
      (comment : Option String) : FLine
  | comment (text : String) : FLine
  | auto : FLine
deriving DecidableEq, Repr

/-- Is this the auto placeholder? -/
def isAuto : FLine → Bool
  | FLine.auto => true
  | _ => false

/-- `FstabLine.__str__` (line 42) / `FstabCommentLine.__str__` (line 70)
as character lists.  `FstabAutoPlaceholderLine.__str__` raises
`NotImplementedError`; rendering only ever applies `str` to the output of
`__iter__`, which has substituted every placeholder away, so the `auto`
case is modelled as the empty line. -/
def lineChars : FLine → List Char
  | FLine.mount s d t o du p c =>
    s.toList ++ '\t' :: d.toList ++ '\t' :: t.toList ++ '\t' :: o.toList ++
      '\t' :: du.toList ++ '\t' :: p.toList ++
      (match c with
       | none => []
       | some cm => ' ' :: '#' :: ' ' :: cm.toList)
  | FLine.comment t => t.toList
  | FLine.auto => []

/-- The tab-joined six fields of a rendered mount line. -/
def fieldsChars (s d t o du p : String) : List Char :=
  joinWith '\t' [s.toList, d.toList, t.toList, o.toList, du.toList, p.toList]

/-- `FstabLine.__str__` as a string. -/
def lineStr (l : FLine) : String := String.mk (lineChars l)

/-- Substitution of one stored line in `Fstab.__iter__`'s loop. -/
def expandLine (B : List FLine) : FLine → List FLine
  | FLine.auto => B
  | l => [l]

/-- `Fstab.__iter__` (line 335): every placeholder is replaced by the
computed basejail lines `B`; if no placeholder was stored, `B` is
prepended to the stored lines. -/
def iterLines (B : List FLine) (ls : List FLine) : List FLine :=
  if ls.any isAuto then ls.flatMap (expandLine B) else B ++ ls

/-- `Fstab.__str__` (line 329): newline-join the printable lines. -/
def renderChars (B : List FLine) (ls : List FLine) : List Char :=
  joinWith '\n' ((iterLines B ls).map lineChars)

/-- `Fstab.__str__` as a string. -/
def renderText (B : List FLine) (ls : List FLine) : String :=
  String.mk (renderChars B ls)

/-- The `destination` entry of a line's dict; comment lines and the
placeholder have no such key (Python: KeyError). -/
def destinationOf : FLine → Option String
  | FLine.mount _ d _ _ _ _ _ => some d
  | _ => none

/-- Parser state built up by `Fstab.parse_lines`: the stored lines, the
`auto_comment_found` flag, the destinations whose duplicate-mountpoint
conflict was logged, and the count of skipped invalid lines. -/
structure PSt where
  lines : List FLine
  autoFound : Bool
  conflicts : List String
  invalids : Nat
deriving DecidableEq, Repr

/-- The empty parser state (`list.clear(self)` at the top of
`parse_lines`). -/
def pstInit : PSt := { lines := [], autoFound := false, conflicts := [], invalids := 0 }

/-- `Fstab.__contains__` (line 363): compare the new line's destination
against the *first* entry of the effective iteration only — the loop
returns in both branches of its first pass.  A first entry without a
`destination` key (a comment line or the placeholder) raises KeyError. -/
def fstabContains (B : List FLine) (stored : List FLine) (dest : String) :
    Except CErr Bool :=
  match iterLines B stored with
  | [] => Except.ok false
  | e :: _ =>
    match destinationOf e with
    | some d => Except.ok (dest == d)
    | none => Except.error (CErr.keyError "destination")

/-- The tail of `parse_lines`' loop body after comment handling: strip the
mount part, skip it when blank, tokenize into exactly 6 fields (logging
and skipping other counts), run the duplicate check, and append. -/
def parseMountTail (B : List FLine) (st : PSt) (body : List Char)
    (comment? : Option String) : Except CErr PSt :=
  if (stripWsL body).isEmpty then Except.ok st
  else
    match pySplitWsL (stripWsL body) with
    | [s, d, t, o, du, p] =>
      let nl := FLine.mount (String.mk s) (String.mk d) (String.mk t)
        (String.mk o) (String.mk du) (String.mk p) comment?
      match fstabContains B st.lines (String.mk d) with
      | Except.error e => Except.error e
      | Except.ok dup =>
        let st' :=
          if dup then { st with conflicts := st.conflicts ++ [String.mk d] }
          else st
        Except.ok { st' with lines := st'.lines ++ [nl] }
    | _ => Except.ok { st with invalids := st.invalids + 1 }

/-- One iteration of the `parse_lines` loop (line 159): comment/blank
lines are stored verbatim; a trailing comment equal to `iocage-auto` (with
`ignore_auto_created`) is skipped, the first occurrence leaving the
placeholder; an empty comment becomes `None`; the rest is parsed as a
mount line. -/
def parseStep (B : List FLine) (ignoreAuto : Bool) (st : PSt)
    (l : List Char) : Except CErr PSt :=
  if isCommentChars l || isEmptyChars l then
    Except.ok { st with lines := st.lines ++ [FLine.comment (String.mk l)] }
  else
    match splitFirstHash l with
    | some (body, rest) =>
      if ignoreAuto && stripHashSpaceL rest == "iocage-auto".toList then
        if st.autoFound then Except.ok st
        else
          Except.ok { st with autoFound := true, lines := st.lines ++ [FLine.auto] }
      else
        parseMountTail B st body
          (if (stripHashSpaceL rest).isEmpty then none
           else some (String.mk (stripHashSpaceL rest)))
    | none => parseMountTail B st l none

/-- The `parse_lines` loop over the split lines. -/
def parseFold (B : List FLine) (ignoreAuto : Bool) :
    PSt → List (List Char) → Except CErr PSt
  | st, [] => Except.ok st
  | st, l :: ls =>
    match parseStep B ignoreAuto st l with
    | Except.error e => Except.error e
    | Except.ok st' => parseFold B ignoreAuto st' ls

/-- `Fstab.parse_lines` (line 136): clear the stored lines and run the
loop body over `input_text.split("\n")`.  `B` is the value of
`self.basejail_lines` consulted by the duplicate check's iteration. -/
def parseLines (B : List FLine) (ignoreAuto : Bool) (text : String) :
    Except CErr PSt :=
  parseFold B ignoreAuto pstInit (splitNl text.toList)

/-- The collaborator data consumed by `Fstab.basejail_lines` (line 298):
the attached release's root mountpoint (if any), the owning jail's
`basejail_type` config value, the distribution's base directories
(`helpers.get_basedir_list`, not under src/) and the jail's root
mountpoint. -/
structure FstabCtx where
  releaseRootMountpoint : Option String
  basejailType : Value
  basedirs : List String
  jailRootMountpoint : String
deriving DecidableEq, Repr

/-- `Fstab.basejail_lines` (line 298): empty without a release or when
`basejail_type` is not the string nullfs; otherwise one read-only nullfs
mount line per base directory, tagged `iocage-auto`. -/
def basejailLines (ctx : FstabCtx) : List FLine :=
  match ctx.releaseRootMountpoint with
  | none => []
  | some root =>
    if !(ctx.basejailType == Value.str "nullfs") then []
    else
      ctx.basedirs.map (fun bd =>
        FLine.mount (root ++ "/" ++ bd) (ctx.jailRootMountpoint ++ "/" ++ bd)
          "nullfs" "ro" "0" "0" (some "iocage-auto"))

/-! ### Well-formedness of parsed tables

`wfLine` characterizes lines as `parse_lines` produces them: mount fields
are non-empty, whitespace-free and `#`-free; comments are non-empty, have
no newline, no leading/trailing `#` or space, and differ from the
auto-marker; verbatim lines are newline-free comment/blank lines. -/

/-- A parse-produced mount field. -/
def wfField (s : String) : Bool :=
  !s.toList.isEmpty && s.toList.all (fun c => !isWs c && !(c == '#'))

/-- A parse-produced trailing comment. -/
def wfCommentStr (s : String) : Bool :=
  match s.toList with
  | [] => false
  | x :: xs =>
    !hashSpace x && !hashSpace (xs.getLastD x) &&
      (x :: xs).all (fun c => !(c == '\n')) && !(s == "iocage-auto")

/-- A parse-produced stored line. -/
def wfLine : FLine → Bool
  | FLine.mount s d t o du p c =>
    wfField s && wfField d && wfField t && wfField o && wfField du &&
      wfField p &&
      (match c with
       | none => true
       | some cm => wfCommentStr cm)
  | FLine.comment t =>
    t.toList.all (fun c => !(c == '\n')) &&
      (isCommentChars t.toList || isEmptyChars t.toList)
  | FLine.auto => true

/-- A parse-produced table: well-formed lines, at most one placeholder. -/
def wfTable (p : List FLine) : Prop :=
  p.all wfLine = true ∧ p.countP isAuto ≤ 1

instance (p : List FLine) : Decidable (wfTable p) := by
  unfold wfTable; infer_instance

/-- A well-formed auto-generated block: every line is a mount line with
well-formed fields, no comment-free form, tagged exactly `iocage-auto`
(as `basejail_lines` produces when mountpoints and base directories are
themselves free of whitespace and `#`). -/
def isAutoLine : FLine → Bool
  | FLine.mount s d t o du p c =>
    wfField s && wfField d && wfField t && wfField o && wfField du &&
      wfField p && (c == some "iocage-auto")
  | _ => false

/-- Every line of the block is an auto line. -/
def autoWF (B : List FLine) : Bool := B.all isAutoLine

/-! ## Lemmas about the property store -/

/-- The user-input parser sends the string None to the null value. -/
theorem parse_user_input_none_str :
    parse_user_input (Value.str "None") = Value.null := rfl

theorem alGet_alSet_self (m : List (String × Value)) (k : String) (v : Value) :
    alGet (alSet m k v) k = some v := by
  induction m with
  | nil => simp [alSet, alGet]
  | cons p m ih =>
    by_cases h : p.1 = k
    · simp [alSet, alGet, h]
    · simp [alSet, alGet, h, ih]

theorem alGet_alSet_ne (m : List (String × Value)) (k k' : String) (v : Value)
    (h : ¬ k' = k) : alGet (alSet m k v) k' = alGet m k' := by
  have hne : ¬ k = k' := fun hh => h hh.symm
  induction m with
  | nil => simp [alSet, alGet, hne]
  | cons p m ih =>
    by_cases hp : p.1 = k
    · simp [alSet, alGet, hp, hne]
    · by_cases hq : p.1 = k'
      · simp [alSet, alGet, hp, hq, h]
      · simp [alSet, alGet, hp, hq, ih]

theorem alHas_alSet_self (m : List (String × Value)) (k : String) (v : Value) :
    alHas (alSet m k v) k = true := by
  induction m with
  | nil => simp [alSet, alHas]
  | cons p m ih =>
    by_cases h : p.1 = k
    · simp [alSet, alHas, h]
    · simp [alSet, alHas, h, ih]

theorem alHas_alSet_ne (m : List (String × Value)) (k k' : String) (v : Value)
    (h : ¬ k' = k) : alHas (alSet m k v) k' = alHas m k' := by
  have hne : ¬ k = k' := fun hh => h hh.symm
  induction m with
  | nil => simp [alSet, alHas, hne]
  | cons p m ih =>
    by_cases hp : p.1 = k
    · simp [alSet, alHas, hp, hne]
    · simp [alSet, alHas, hp, ih]

/-- `getitemC` at `"id"` on a store whose raw `id` entry is known. -/
theorem getitemC_id_of_data (c : BC) (v : Value)
    (h : alGet c.data "id" = some v) :
    getitemC c "id" = Except.ok (Value.str (pyStr v)) := by
  simp [getitemC, getitemUser, getId, h]

/-- `_set_id` either leaves the store unchanged or writes the `id` key. -/
theorem setId_writes (c : BC) (n : Value) (c' : BC)
    (h : setId c n = Except.ok c') :
    c' = c ∨ ∃ w, c' = { data := alSet c.data "id" w } := by
  unfold setId at h
  repeat' split at h
  all_goals
    first
      | exact Or.inl (Except.ok.inj h).symm
      | exact Or.inr ⟨_, (Except.ok.inj h).symm⟩
      | cases h

/-- `_set_type` only writes the `basejail`, `clonejail` and `type` keys. -/
theorem setType_writes (c : BC) (v : Value) (c' : BC)
    (h : setType c v = Except.ok c') (m : String)
    (hm : ¬ (m = "basejail" ∨ m = "clonejail" ∨ m = "type")) :
    alGet c'.data m = alGet c.data m := by
  push_neg at hm
  obtain ⟨hb, hc, ht⟩ := hm
  unfold setType at h
  split at h
  · rw [← (Except.ok.inj h)]
    simp only [setBasejailRaw, setClonejailRaw]
    rw [alGet_alSet_ne _ _ _ _ ht, alGet_alSet_ne _ _ _ _ hc,
      alGet_alSet_ne _ _ _ _ hb]
  · split at h
    · rw [← (Except.ok.inj h)]
      simp only [setBasejailRaw, setClonejailRaw]
      rw [alGet_alSet_ne _ _ _ _ ht, alGet_alSet_ne _ _ _ _ hc,
        alGet_alSet_ne _ _ _ _ hb]
    · rw [← (Except.ok.inj h)]
      exact alGet_alSet_ne _ _ _ _ ht

/-- A removal leaves every other key's binding unchanged. -/
theorem alGet_alDel_ne (m : List (String × Value)) (k k' : String)
    (h : ¬ k' = k) : alGet (alDel m k) k' = alGet m k' := by
  induction m with
  | nil => rfl
  | cons p m ih =>
    by_cases hp : p.1 = k
    · have hq : (p.1 == k') = false := by
        simp only [beq_eq_false_iff_ne, ne_eq]
        intro hh
        exact h (hh.symm.trans hp)
      rw [show alDel (p :: m) k = alDel m k from by
          simp [alDel, List.filter_cons, hp],
        ih,
        show alGet (p :: m) k' =
          (if p.1 == k' then some p.2 else alGet m k') from rfl,
        hq]
      simp
    · rw [show alDel (p :: m) k = p :: alDel m k from by
          simp [alDel, List.filter_cons, hp],
        show alGet (p :: alDel m k) k' =
          (if p.1 == k' then some p.2 else alGet (alDel m k) k') from rfl,
        ih]
      rfl

/-- `_set_tag` only writes the `tag` or `tags` key. -/
theorem setTag_writes (c : BC) (v : Value) (c' : BC)
    (h : setTag c v = Except.ok c') (m : String)
    (hm : ¬ (m = "tag" ∨ m = "tags")) :
    alGet c'.data m = alGet c.data m := by
  push_neg at hm
  unfold setTag at h
  repeat' split at h
  all_goals cases h
  all_goals
    first
      | exact alGet_alSet_ne _ _ _ _ hm.1
      | exact alGet_alSet_ne _ _ _ _ hm.2

/-- `_set_login_flags` only writes or removes the `login_flags` key. -/
theorem setLoginFlags_writes (c : BC) (v : Value) (c' : BC)
    (h : setLoginFlags c v = Except.ok c') (m : String)
    (hm : ¬ m = "login_flags") : alGet c'.data m = alGet c.data m := by
  unfold setLoginFlags at h
  repeat' split at h
  all_goals cases h
  all_goals
    first
      | exact alGet_alDel_ne _ _ _ hm
      | exact alGet_alSet_ne _ _ _ _ hm

/-- `_set_jail_zfs` only writes or removes the `jail_zfs` key. -/
theorem setJailZfs_writes (c : BC) (v : Value) (c' : BC)
    (h : setJailZfs c v = Except.ok c') (m : String)
    (hm : ¬ m = "jail_zfs") : alGet c'.data m = alGet c.data m := by
  unfold setJailZfs at h
  repeat' split at h
  all_goals cases h
  all_goals
    first
      | exact alGet_alDel_ne _ _ _ hm
      | exact alGet_alSet_ne _ _ _ _ hm

/-- `_set_jail_zfs_dataset` only writes the `jail_zfs_dataset` key. -/
theorem setJailZfsDataset_writes (c : BC) (v : Value) (c' : BC)
    (h : setJailZfsDataset c v = Except.ok c') (m : String)
    (hm : ¬ m = "jail_zfs_dataset") : alGet c'.data m = alGet c.data m := by
  unfold setJailZfsDataset at h
  repeat' split at h
  all_goals cases h
  all_goals exact alGet_alSet_ne _ _ _ _ hm

/-- Frame property of `__setitem__`: a successful assignment to `k` leaves
every raw key outside `writesOf k` unchanged. -/
theorem setitem_frame (c : BC) (k : String) (v : Value) (c' : BC)
    (h : setitemC c k v = Except.ok c') (m : String)
    (hm : ¬ m ∈ writesOf k) : alGet c'.data m = alGet c.data m := by
  by_cases h1 : k = "id"
  · subst h1
    rw [show setitemC c "id" v = setId c (parse_user_input v) from rfl] at h
    rw [show writesOf "id" = ["id"] from rfl, List.mem_singleton] at hm
    rcases setId_writes _ _ _ h with rfl | ⟨w, rfl⟩
    · rfl
    · exact alGet_alSet_ne _ _ _ _ hm
  by_cases h2 : k = "type"
  · subst h2
    rw [show setitemC c "type" v = setType c (parse_user_input v) from rfl] at h
    rw [show writesOf "type" = ["basejail", "clonejail", "type"] from rfl] at hm
    simp only [List.mem_cons, List.mem_singleton, List.not_mem_nil,
      or_false] at hm
    exact setType_writes _ _ _ h m hm
  by_cases h3 : k = "tags"
  · subst h3
    rw [show setitemC c "tags" v =
      Except.ok (setTags c (parse_user_input v)) from rfl] at h
    rw [show writesOf "tags" = ["tags", "tag"] from rfl] at hm
    simp only [List.mem_cons, List.mem_singleton, List.not_mem_nil,
      or_false] at hm
    push_neg at hm
    rw [← (Except.ok.inj h)]
    simp only [setTags]
    rw [alGet_alDel_ne _ _ _ hm.2, alGet_alSet_ne _ _ _ _ hm.1]
  by_cases h4 : k = "tag"
  · subst h4
    rw [show setitemC c "tag" v = setTag c (parse_user_input v) from rfl] at h
    rw [show writesOf "tag" = ["tag", "tags"] from rfl] at hm
    simp only [List.mem_cons, List.mem_singleton, List.not_mem_nil,
      or_false] at hm
    exact setTag_writes _ _ _ h m hm
  by_cases h5 : k = "priority"
  · subst h5
    rw [show setitemC c "priority" v = Except.ok { data := alSet c.data "priority" (Value.str (pyStr (parse_user_input v))) } from rfl] at h
    rw [show writesOf "priority" = ["priority"] from rfl,
      List.mem_singleton] at hm
    rw [← (Except.ok.inj h)]
    exact alGet_alSet_ne _ _ _ _ hm
  by_cases h6 : k = "basejail"
  · subst h6
    rw [show setitemC c "basejail" v =
      Except.ok (setBasejailRaw c (parse_user_input v)) from rfl] at h
    rw [show writesOf "basejail" = ["basejail"] from rfl,
      List.mem_singleton] at hm
    rw [← (Except.ok.inj h)]
    simp only [setBasejailRaw]
    exact alGet_alSet_ne _ _ _ _ hm
  by_cases h7 : k = "clonejail"
  · subst h7
    rw [show setitemC c "clonejail" v =
      Except.ok (setClonejailRaw c (parse_user_input v)) from rfl] at h
    rw [show writesOf "clonejail" = ["clonejail"] from rfl,
      List.mem_singleton] at hm
    rw [← (Except.ok.inj h)]
    simp only [setClonejailRaw]
    exact alGet_alSet_ne _ _ _ _ hm
  by_cases h8 : k = "defaultrouter"
  · subst h8
    rw [show setitemC c "defaultrouter" v =
      Except.ok (setRouterRaw c "defaultrouter" (parse_user_input v))
      from rfl] at h
    rw [show writesOf "defaultrouter" = ["defaultrouter"] from rfl,
      List.mem_singleton] at hm
    rw [← (Except.ok.inj h)]
    simp only [setRouterRaw]
    exact alGet_alSet_ne _ _ _ _ hm
  by_cases h9 : k = "defaultrouter6"
  · subst h9
    rw [show setitemC c "defaultrouter6" v =
      Except.ok (setRouterRaw c "defaultrouter6" (parse_user_input v))
      from rfl] at h
    rw [show writesOf "defaultrouter6" = ["defaultrouter6"] from rfl,
      List.mem_singleton] at hm
    rw [← (Except.ok.inj h)]
    simp only [setRouterRaw]
    exact alGet_alSet_ne _ _ _ _ hm
  by_cases h10 : k = "vnet"
  · subst h10
    rw [show setitemC c "vnet" v = Except.ok { data := alSet c.data "vnet" (Value.str (to_string (parse_user_input v) "on" "off" "-")) } from rfl] at h
    rw [show writesOf "vnet" = ["vnet"] from rfl, List.mem_singleton] at hm
    rw [← (Except.ok.inj h)]
    exact alGet_alSet_ne _ _ _ _ hm
  by_cases h11 : k = "legacy"
  · subst h11
    rw [show setitemC c "legacy" v = Except.ok c from rfl] at h
    rw [← (Except.ok.inj h)]
  by_cases h12 : k = "login_flags"
  · subst h12
    rw [show setitemC c "login_flags" v =
      setLoginFlags c (parse_user_input v) from rfl] at h
    rw [show writesOf "login_flags" = ["login_flags"] from rfl,
      List.mem_singleton] at hm
    exact setLoginFlags_writes _ _ _ h m hm
  by_cases h13 : k = "jail_zfs"
  · subst h13
    rw [show setitemC c "jail_zfs" v =
      setJailZfs c (parse_user_input v) from rfl] at h
    rw [show writesOf "jail_zfs" = ["jail_zfs"] from rfl,
      List.mem_singleton] at hm
    exact setJailZfs_writes _ _ _ h m hm
  by_cases h14 : k = "jail_zfs_dataset"
  · subst h14
    rw [show setitemC c "jail_zfs_dataset" v =
      setJailZfsDataset c (parse_user_input v) from rfl] at h
    rw [show writesOf "jail_zfs_dataset" = ["jail_zfs_dataset"] from rfl,
      List.mem_singleton] at hm
    exact setJailZfsDataset_writes _ _ _ h m hm
  rw [show writesOf k = [k] from by simp [writesOf, h2, h3, h4],
    List.mem_singleton] at hm
  simp only [setitemC, h1, h2, h3, h4, h5, h6, h7, h8, h9, h10, h11, h12,
    h13, h14, beq_iff_eq, if_false] at h
  rw [← (Except.ok.inj h)]
  exact alGet_alSet_ne _ _ _ _ hm

/-- Keys not written by an assignment to a different key: membership in
`writesOf k'` requires being `k'` itself, one of the `_set_type` targets,
or one of the `tag`/`tags` pair. -/
theorem not_in_writesOf {k k' : String} (hne : ¬ k = k')
    (hk : ¬ (k = "basejail" ∨ k = "clonejail" ∨ k = "type" ∨ k = "tag" ∨
      k = "tags")) :
    ¬ k ∈ writesOf k' := by
  push_neg at hk
  obtain ⟨hb, hc, ht, htag, htags⟩ := hk
  unfold writesOf
  split
  · simp [hb, hc, ht]
  · split
    · simp [htags, htag]
    · split
      · simp [htag, htags]
      · simpa using hne

/-- `"id"` is outside the write set of any other key. -/
theorem id_not_in_writesOf {k' : String} (hne : ¬ ("id" : String) = k') :
    ¬ ("id" : String) ∈ writesOf k' :=
  not_in_writesOf hne (by decide)

/-- A key with no registered setter resolves to the raw-write branch of
`__setitem__`. -/
theorem setitem_raw (c : BC) (k : String) (v : Value)
    (hs : hasSetterKey k = false) :
    setitemC c k v =
      Except.ok { data := alSet c.data k (parse_user_input v) } := by
  unfold hasSetterKey at hs
  simp only [Bool.or_eq_false_iff, beq_eq_false_iff_ne, ne_eq] at hs
  obtain ⟨⟨⟨⟨⟨⟨⟨⟨⟨⟨⟨⟨⟨h1, h2⟩, h3⟩, h4⟩, h5⟩, h6⟩, h7⟩, h8⟩, h9⟩, h10⟩,
    h11⟩, h12⟩, h13⟩, h14⟩ := hs
  simp [setitemC, h1, h2, h3, h4, h5, h6, h7, h8, h9, h10, h11, h12, h13,
    h14]

/-- A key with no setter and outside the write set of another key is
untouched by an assignment to that other key. -/
theorem no_setter_not_in_writesOf {k k' : String} (hs : hasSetterKey k = false)
    (hne : ¬ k = k') : ¬ k ∈ writesOf k' := by
  refine not_in_writesOf hne ?_
  rintro (rfl | rfl | rfl | rfl | rfl) <;> simp [hasSetterKey] at hs

/-- Assigning the identity a value equal to the current one is a no-op
(the early return of `_set_id`). -/
theorem setitem_id_same (c : BC) (v : String)
    (hid : alGet c.data "id" = some (Value.str v))
    (hpar : parse_user_input (Value.str v) = Value.str v) :
    setitemC c "id" (Value.str v) = Except.ok c := by
  have hg : getitemC c "id" = Except.ok (Value.str v) := by
    simpa [pyStr] using getitemC_id_of_data c (Value.str v) hid
  simp [setitemC, hpar, setId, hg]

/-- Assigning the identity a *different* valid name rewrites the `id`
key: the rename does go through. -/
theorem setitem_id_renames (c : BC) (v w : String)
    (hid : alGet c.data "id" = some (Value.str v))
    (hpar : parse_user_input (Value.str w) = Value.str w)
    (hvw : ¬ v = w) (hvalid : validate_name w = true)
    (hinv : findInvalidChars w = []) :
    setitemC c "id" (Value.str w) =
      Except.ok { data := alSet c.data "id" (Value.str w) } := by
  have hg : getitemC c "id" = Except.ok (Value.str v) := by
    simpa [pyStr] using getitemC_id_of_data c (Value.str v) hid
  simp [setitemC, hpar, setId, hg, hvw, hvalid, hinv]

/-- Reads of `id` only depend on the raw `id` entry. -/
theorem getitemC_id_congr (c c' : BC)
    (h : alGet c'.data "id" = alGet c.data "id") :
    getitemC c' "id" = getitemC c "id" := by
  simp [getitemC, getitemUser, getId, h]

/-- C3 counterexample input: a store with identity web01. -/
theorem setitem_name_raw (c : BC) (w : Value) :
    setitemC c "name" w =
      Except.ok { data := alSet c.data "name" (parse_user_input w) } :=
  setitem_raw c "name" w (by decide)

/-- The override value for a protected key when the identity is a
string. -/
theorem cloneValue_protected (cur : Value) (kv : String × Value)
    (hk : kv.1 = "id" ∨ kv.1 = "name" ∨ kv.1 = "uuid")
    (hcur : ¬ cur = Value.null) : cloneValue cur kv = cur := by
  unfold cloneValue
  rcases hk with hk | hk | hk <;>
    simp [hk, hcur]

/-- The pass-through value for an unprotected key. -/
theorem cloneValue_plain (cur : Value) (kv : String × Value)
    (hk : ¬ (kv.1 = "id" ∨ kv.1 = "name" ∨ kv.1 = "uuid")) :
    cloneValue cur kv = kv.2 := by
  unfold cloneValue
  push_neg at hk
  simp [hk.1, hk.2.1, hk.2.2]

/-- The loop of `clone` preserves a string identity that survives the
user-input parser. -/
theorem clone_fold_id (v : String)
    (hpar : parse_user_input (Value.str v) = Value.str v) :
    ∀ (d : List (String × Value)) (c c' : BC),
      alGet c.data "id" = some (Value.str v) →
      cloneFold (Value.str v) c d = Except.ok c' →
      alGet c'.data "id" = some (Value.str v)
  | [], c, c', hid, h => by
    rw [← (Except.ok.inj h)]; exact hid
  | kv :: rest, c, c', hid, h => by
    unfold cloneFold at h
    cases hstep : setitemC c kv.1 (cloneValue (Value.str v) kv) with
    | error e => rw [hstep] at h; cases h
    | ok c1 =>
      rw [hstep] at h
      by_cases hk : kv.1 = "id"
      · rw [cloneValue_protected _ _ (Or.inl hk) (by simp), hk] at hstep
        rw [setitem_id_same c v hid hpar] at hstep
        have hc1 : c1 = c := (Except.ok.inj hstep).symm
        rw [hc1] at h
        exact clone_fold_id v hpar rest c c' hid h
      · have hfr := setitem_frame c kv.1 _ c1 hstep "id"
          (id_not_in_writesOf (fun hh => hk hh.symm))
        exact clone_fold_id v hpar rest c1 c' (hfr.trans hid) h

/-- The loop of `clone` applies every non-identity key without a setter
as a raw write of its parsed value. -/
theorem clone_fold_applied (cur : Value) :
    ∀ (d : List (String × Value)) (c c' : BC),
      cloneFold cur c d = Except.ok c' →
      ∀ k, ¬ k ∈ (["id", "name", "uuid"] : List String) →
        hasSetterKey k = false →
        alGet c'.data k =
          (match lookupLast d k with
           | some w => some (parse_user_input w)
           | none => alGet c.data k)
  | [], c, c', h, k, hk, hs => by
    rw [← (Except.ok.inj h)]; rfl
  | kv :: rest, c, c', h, k, hk, hs => by
    unfold cloneFold at h
    cases hstep : setitemC c kv.1 (cloneValue cur kv) with
    | error e => rw [hstep] at h; cases h
    | ok c1 =>
      rw [hstep] at h
      have hrest := clone_fold_applied cur rest c1 c' h k hk hs
      simp only [List.mem_cons, List.mem_singleton, List.not_mem_nil,
        or_false, not_or] at hk
      cases hLL : lookupLast rest k with
      | some w =>
        rw [hLL] at hrest
        simp only [lookupLast, hLL]
        exact hrest
      | none =>
        rw [hLL] at hrest
        simp only [lookupLast, hLL]
        by_cases hkk : kv.1 = k
        · have hval : cloneValue cur kv = kv.2 := by
            refine cloneValue_plain cur kv ?_
            rw [hkk]
            rintro (rfl | rfl | rfl)
            · exact hk.1 rfl
            · exact hk.2.1 rfl
            · exact hk.2.2 rfl
          rw [hval, hkk, setitem_raw c k kv.2 hs] at hstep
          have hc1 : c1 = { data := alSet c.data k (parse_user_input kv.2) } :=
            (Except.ok.inj hstep).symm
          rw [hrest, hc1]
          simp [hkk, alGet_alSet_self]
        · have hfr := setitem_frame c kv.1 _ c1 hstep k
            (no_setter_not_in_writesOf hs (fun hh => hkk hh.symm))
          rw [hrest, hfr]
          simp [show ¬ kv.1 = k from hkk]

/-- Assigning the identity the string None on a store whose raw `id` is
null: the parser turns the string into `None` and `_set_id` writes null
back. -/
theorem setitem_id_none_str (c : BC) (h : alGet c.data "id" = some Value.null) :
    setitemC c "id" (Value.str "None") =
      Except.ok { data := alSet c.data "id" Value.null } := by
  have hg : getitemC c "id" = Except.ok (Value.str "None") := by
    simpa [pyStr] using getitemC_id_of_data c Value.null h
  have hp : parse_user_input (Value.str "None") = Value.null := rfl
  simp [setitemC, setId, hg, hp]

/-- The loop of `clone` on a store whose raw `id` is null (read back as
the string None): the raw `id` stays null, and every incoming
`name`/`uuid` key is stored as null (the parsed form of the replacement
string None). -/
theorem clone_fold_null :
    ∀ (d : List (String × Value)) (c c' : BC),
      alGet c.data "id" = some Value.null →
      cloneFold (Value.str "None") c d = Except.ok c' →
      alGet c'.data "id" = some Value.null ∧
      (∀ k, (k = "name" ∨ k = "uuid") →
        alGet c'.data k =
          (match lookupLast d k with
           | some _ => some Value.null
           | none => alGet c.data k))
  | [], c, c', hid, h => by
    rw [← (Except.ok.inj h)]
    exact ⟨hid, fun k _ => rfl⟩
  | kv :: rest, c, c', hid, h => by
    unfold cloneFold at h
    cases hstep : setitemC c kv.1 (cloneValue (Value.str "None") kv) with
    | error e => rw [hstep] at h; cases h
    | ok c1 =>
      rw [hstep] at h
      by_cases hid1 : kv.1 = "id"
      · rw [cloneValue_protected _ _ (Or.inl hid1) (by simp), hid1,
          setitem_id_none_str c hid] at hstep
        have hc1 : c1 = { data := alSet c.data "id" Value.null } :=
          (Except.ok.inj hstep).symm
        have hid' : alGet c1.data "id" = some Value.null := by
          rw [hc1]; exact alGet_alSet_self _ _ _
        obtain ⟨ha, hb⟩ := clone_fold_null rest c1 c' hid' h
        refine ⟨ha, fun k hk => ?_⟩
        have hpre : alGet c1.data k = alGet c.data k := by
          rw [hc1]
          refine alGet_alSet_ne _ _ _ _ ?_
          rcases hk with rfl | rfl <;> decide
        have hk1 : ¬ kv.1 = k := by
          rcases hk with rfl | rfl <;> (rw [hid1]; decide)
        rw [hb k hk]
        cases hLL : lookupLast rest k <;> simp [lookupLast, hLL, hk1, hpre]
      · by_cases hnu : kv.1 = "name" ∨ kv.1 = "uuid"
        · have hsetter : hasSetterKey kv.1 = false := by
            rcases hnu with h | h <;> (rw [h]; decide)
          rw [cloneValue_protected _ _ (Or.inr hnu) (by simp),
            setitem_raw c kv.1 _ hsetter] at hstep
          have hc1 : c1 = { data := alSet c.data kv.1 Value.null } := by
            have h' := (Except.ok.inj hstep).symm
            rw [parse_user_input_none_str] at h'
            exact h'
          have hid' : alGet c1.data "id" = some Value.null := by
            rw [hc1]
            rw [alGet_alSet_ne _ _ _ _ (by
              rcases hnu with h | h <;> (rw [h]; decide))]
            exact hid
          obtain ⟨ha, hb⟩ := clone_fold_null rest c1 c' hid' h
          refine ⟨ha, fun k hk => ?_⟩
          rw [hb k hk]
          by_cases hkk : kv.1 = k
          · cases hLL : lookupLast rest k <;>
              simp [lookupLast, hLL, hkk, hc1, alGet_alSet_self]
          · have hpre : alGet c1.data k = alGet c.data k := by
              rw [hc1]
              exact alGet_alSet_ne _ _ _ _ (fun hh => hkk hh.symm)
            cases hLL : lookupLast rest k <;>
              simp [lookupLast, hLL, hkk, hpre]
        · have hval : cloneValue (Value.str "None") kv = kv.2 :=
            cloneValue_plain _ _ (by tauto)
          rw [hval] at hstep
          have hfr_id := setitem_frame c kv.1 _ c1 hstep "id"
            (id_not_in_writesOf (fun hh => hid1 hh.symm))
          obtain ⟨ha, hb⟩ := clone_fold_null rest c1 c' (hfr_id.trans hid) h
          refine ⟨ha, fun k hk => ?_⟩
          have hk1 : ¬ kv.1 = k := fun hh => hnu (by
            rcases hk with rfl | rfl
            · exact Or.inl hh
            · exact Or.inr hh)
          have hfr_k : alGet c1.data k = alGet c.data k := by
            refine setitem_frame c kv.1 _ c1 hstep k (not_in_writesOf ?_ ?_)
            · exact fun hh => hk1 hh.symm
            · rcases hk with rfl | rfl <;> decide
          rw [hb k hk]
          cases hLL : lookupLast rest k <;> simp [lookupLast, hLL, hk1, hfr_k]

/-! ## Claim theorems for the property store -/

/-- C2: on a store whose identity is already the (parser-stable) string
`v`, `clone(d)` cannot change `get("id")` — incoming `id`/`name`/`uuid`
values are overridden to the current identity — while every other key of
`d` is applied through `__setitem__`: a key outside the full `_set_`
registry (`hasSetterKey`) lands in the raw store as the parsed form of
its last occurrence, a setter key through its setter; cloning an empty
mapping is a no-op. -/
theorem c2_clone_identity_protected :
    (∀ (c : BC) (v : String) (d : List (String × Value)) (c' : BC),
      alGet c.data "id" = some (Value.str v) →
      parse_user_input (Value.str v) = Value.str v →
      cloneC c d = Except.ok c' →
      alGet c'.data "id" = some (Value.str v) ∧
      getitemC c' "id" = Except.ok (Value.str v) ∧
      (∀ k w, ¬ k ∈ (["id", "name", "uuid"] : List String) →
        hasSetterKey k = false → lookupLast d k = some w →
        alGet c'.data k = some (parse_user_input w))) ∧
    (∀ c : BC, cloneC c [] = Except.ok c) := by
  constructor
  · intro c v d c' hid hpar h
    unfold cloneC at h
    by_cases hd : d.isEmpty
    · rw [if_pos hd] at h
      have hc : c' = c := (Except.ok.inj h).symm
      subst hc
      refine ⟨hid, ?_, ?_⟩
      · simpa [pyStr] using getitemC_id_of_data c' (Value.str v) hid
      · intro k w _ _ hlast
        rw [List.isEmpty_iff.mp hd] at hlast
        cases hlast
    · rw [if_neg hd] at h
      have hg : getitemC c "id" = Except.ok (Value.str v) := by
        simpa [pyStr] using getitemC_id_of_data c (Value.str v) hid
      rw [hg] at h
      have hid' := clone_fold_id v hpar d c c' hid h
      refine ⟨hid', ?_, ?_⟩
      · simpa [pyStr] using getitemC_id_of_data c' (Value.str v) hid'
      · intro k w hk hs hlast
        have := clone_fold_applied (Value.str v) d c c' h k hk hs
        rw [hlast] at this
        exact this
  · intro c
    rfl

/-- C2 witness: the spec's own example — identity web01, clone of
id=other plus port=80. -/
theorem c2_clone_identity_protected_witness :
    alGet (BC.data { data := [("id", Value.str "web01"),
        ("port", Value.int 80)] }) "id" = some (Value.str "web01") ∧
    getitemC { data := [("id", Value.str "web01"), ("port", Value.int 80)] }
        "id" = Except.ok (Value.str "web01") ∧
    (∀ k w, ¬ k ∈ (["id", "name", "uuid"] : List String) →
      hasSetterKey k = false →
      lookupLast [("id", Value.str "other"), ("port", Value.int 80)] k =
        some w →
      alGet (BC.data { data := [("id", Value.str "web01"),
          ("port", Value.int 80)] }) k = some (parse_user_input w)) :=
  c2_clone_identity_protected.1 { data := [("id", Value.str "web01")] }
    "web01" [("id", Value.str "other"), ("port", Value.int 80)]
    { data := [("id", Value.str "web01"), ("port", Value.int 80)] }
    rfl rfl rfl

/-- C3 counterexample: on a store whose identity is web01, assigning a
*different* valid name through the `id` property setter is not a no-op —
it renames the store. -/
theorem c3_setter_rename_counterexample :
    setitemC { data := [("id", Value.str "web01")] } "id"
        (Value.str "other") =
      Except.ok { data := [("id", Value.str "other")] } ∧
    getitemC { data := [("id", Value.str "other")] } "id" =
      Except.ok (Value.str "other") ∧
    ¬ (Value.str "other" = Value.str "web01") :=
  ⟨rfl, rfl, by decide⟩

/-- C3 amended: assigning `id` a value *equal* to the current identity is
a no-op; assigning `name` or `uuid` stores the raw value under that key
but never changes the identity (reads of `id`, and of `name`/`uuid`,
still return the old identity); assigning `id` a different valid name
does rename the store. -/
theorem c3_identity_setter_amended :
    (∀ (c : BC) (v : String), alGet c.data "id" = some (Value.str v) →
      parse_user_input (Value.str v) = Value.str v →
      setitemC c "id" (Value.str v) = Except.ok c) ∧
    (∀ (c : BC) (w : Value) (c' : BC), setitemC c "name" w = Except.ok c' →
      alGet c'.data "id" = alGet c.data "id" ∧
      getitemC c' "id" = getitemC c "id" ∧
      getitemC c' "name" = getitemC c "name") ∧
    (∀ (c : BC) (w : Value) (c' : BC), setitemC c "uuid" w = Except.ok c' →
      alGet c'.data "id" = alGet c.data "id" ∧
      getitemC c' "uuid" = getitemC c "uuid") ∧
    (∀ (c : BC) (v w : String), alGet c.data "id" = some (Value.str v) →
      parse_user_input (Value.str w) = Value.str w → ¬ v = w →
      validate_name w = true → findInvalidChars w = [] →
      setitemC c "id" (Value.str w) =
        Except.ok { data := alSet c.data "id" (Value.str w) }) := by
  refine ⟨setitem_id_same, ?_, ?_, setitem_id_renames⟩
  · intro c w c' h
    have hfr := setitem_frame c "name" w c' h "id" (by decide)
    exact ⟨hfr, getitemC_id_congr c c' hfr,
      by simp [getitemC, getitemUser, getId, hfr]⟩
  · intro c w c' h
    have hfr := setitem_frame c "uuid" w c' h "id" (by decide)
    exact ⟨hfr, by simp [getitemC, getitemUser, getId, hfr]⟩

/-- C3 amended witness: a same-value assignment on a concrete store is a
no-op, and a name assignment leaves the identity readable as before. -/
theorem c3_identity_setter_amended_witness :
    setitemC { data := [("id", Value.str "web01")] } "id"
        (Value.str "web01") =
      Except.ok { data := [("id", Value.str "web01")] } ∧
    (alGet (BC.data { data := [("id", Value.str "web01"),
        ("name", Value.str "x")] }) "id" =
      alGet (BC.data { data := [("id", Value.str "web01")] }) "id" ∧
      getitemC { data := [("id", Value.str "web01"), ("name", Value.str "x")] }
          "id" =
        getitemC { data := [("id", Value.str "web01")] } "id" ∧
      getitemC { data := [("id", Value.str "web01"), ("name", Value.str "x")] }
          "name" =
        getitemC { data := [("id", Value.str "web01")] } "name") :=
  ⟨c3_identity_setter_amended.1 { data := [("id", Value.str "web01")] }
      "web01" rfl rfl,
    c3_identity_setter_amended.2.1 { data := [("id", Value.str "web01")] }
      (Value.str "x")
      { data := [("id", Value.str "web01"), ("name", Value.str "x")] } rfl⟩

/-- C8: `set` returns true exactly when the key's presence in the raw
user-data layer or its string fingerprint changed across the assignment
(so reapplying a value with identical serialization returns false). -/
theorem c8_set_change_detection :
    ∀ (c : BC) (k : String) (v : Value) (b : Bool) (c' : BC),
      setC c k v = Except.ok (b, c') →
      setitemC c k v = Except.ok c' ∧
      (b = true ↔
        (¬ alHas c.data k = alHas c'.data k ∨
          ¬ fingerprint c k = fingerprint c' k)) := by
  intro c k v b c' h
  unfold setC at h
  cases hs : setitemC c k v with
  | error e => rw [hs] at h; cases h
  | ok c2 =>
    rw [hs] at h
    simp only [bne_iff_ne, ne_eq] at h
    split at h
    next hcond =>
      obtain ⟨hb, hc⟩ := Prod.mk.inj (Except.ok.inj h)
      rw [← hc]
      refine ⟨rfl, ?_⟩
      rw [← hb]
      simp [hcond]
    next hcond =>
      obtain ⟨hb, hc⟩ := Prod.mk.inj (Except.ok.inj h)
      rw [← hc]
      refine ⟨rfl, ?_⟩
      rw [← hb]
      push_neg at hcond
      simp [hcond, beq_eq_false_iff_ne]

/-- C8 witness: reapplying the identical value returns false. -/
theorem c8_set_change_detection_witness :
    setitemC { data := [("port", Value.int 80)] } "port" (Value.int 80) =
      Except.ok { data := [("port", Value.int 80)] } ∧
    ((false : Bool) = true ↔
      (¬ alHas (BC.data { data := [("port", Value.int 80)] }) "port" =
          alHas (BC.data { data := [("port", Value.int 80)] }) "port" ∨
        ¬ fingerprint { data := [("port", Value.int 80)] } "port" =
          fingerprint { data := [("port", Value.int 80)] } "port")) :=
  c8_set_change_detection { data := [("port", Value.int 80)] } "port"
    (Value.int 80) false { data := [("port", Value.int 80)] } rfl

/-- C10: on a store whose raw `id` is the null value (as in the defaults
table, where `id` defaults to `None`), reading `id` yields the literal
string None; `clone` therefore treats the identity as set, keeps the raw
`id` null (still read as the string None), and replaces every incoming
`id`/`name`/`uuid` value by the string None — whose parsed form, null, is
what lands in the store instead of the incoming value. -/
theorem c10_null_id_string_none :
    ∀ (c : BC), alGet c.data "id" = some Value.null →
      getitemC c "id" = Except.ok (Value.str "None") ∧
      (∀ (d : List (String × Value)) (c' : BC), cloneC c d = Except.ok c' →
        alGet c'.data "id" = some Value.null ∧
        getitemC c' "id" = Except.ok (Value.str "None") ∧
        (∀ k w, (k = "name" ∨ k = "uuid") → lookupLast d k = some w →
          alGet c'.data k = some Value.null)) := by
  intro c hid
  have hg : getitemC c "id" = Except.ok (Value.str "None") := by
    simpa [pyStr] using getitemC_id_of_data c Value.null hid
  refine ⟨hg, ?_⟩
  intro d c' h
  unfold cloneC at h
  by_cases hd : d.isEmpty
  · rw [if_pos hd] at h
    have hc : c' = c := (Except.ok.inj h).symm
    subst hc
    refine ⟨hid, hg, ?_⟩
    intro k w _ hlast
    rw [List.isEmpty_iff.mp hd] at hlast
    cases hlast
  · rw [if_neg hd, hg] at h
    obtain ⟨ha, hb⟩ := clone_fold_null d c c' hid h
    refine ⟨ha, by simpa [pyStr] using getitemC_id_of_data c' Value.null ha,
      ?_⟩
    intro k w hk hlast
    have := hb k hk
    rw [hlast] at this
    exact this

/-- C10 witness: the defaults store itself (whose table sets `id` to
null), cloned with incoming id/name/uuid values. -/
theorem c10_null_id_string_none_witness :
    getitemC { data := DEFAULTS } "id" = Except.ok (Value.str "None") ∧
    (∀ k w, (k = "name" ∨ k = "uuid") →
      lookupLast [("id", Value.str "other"), ("name", Value.str "x"),
        ("uuid", Value.str "y")] k = some w →
      alGet (BC.data { data := DEFAULTS ++
        [("name", Value.null), ("uuid", Value.null)] }) k =
        some Value.null) := by
  obtain ⟨h1, h2⟩ := c10_null_id_string_none { data := DEFAULTS } rfl
  refine ⟨h1, ?_⟩
  obtain ⟨_, _, h3⟩ := h2
    [("id", Value.str "other"), ("name", Value.str "x"),
      ("uuid", Value.str "y")]
    { data := DEFAULTS ++ [("name", Value.null), ("uuid", Value.null)] }
    (by rfl)
  exact h3

/-! ## Lemmas about the defaults layer, the resource identity and the
rename sequences -/

theorem memStr_append_self (l : List String) (k : String) :
    memStr (l ++ [k]) k = true := by
  induction l with
  | nil => simp [memStr]
  | cons x l ih =>
    simp only [memStr, List.cons_append, List.any_cons] at ih ⊢
    rw [ih]
    simp

theorem memStr_filter_ne (l : List String) (k : String) :
    memStr (l.filter (fun x => !(x == k))) k = false := by
  induction l with
  | nil => rfl
  | cons x l ih =>
    by_cases h : x = k
    · simp only [List.filter_cons]
      rw [show (!(x == k)) = false from by simp [h]]
      exact ih
    · have hxk : (x == k) = false := by simp [h]
      simp [List.filter_cons, hxk, memStr, List.any_cons, ih]

theorem list_get?_set_self {α : Type} (l : List α) (i : Nat) (a : α)
    (x : α) (h : l.get? i = some x) : (l.set i a).get? i = some a := by
  induction l generalizing i with
  | nil => cases h
  | cons y l ih =>
    cases i with
    | zero => rfl
    | succ j => exact ih j h

theorem list_get?_set_ne {α : Type} (l : List α) (i j : Nat) (a : α)
    (h : ¬ i = j) : (l.set i a).get? j = l.get? j := by
  induction l generalizing i j with
  | nil => rfl
  | cons y l ih =>
    cases i with
    | zero =>
      cases j with
      | zero => exact absurd rfl h
      | succ j' => rfl
    | succ i' =>
      cases j with
      | zero => rfl
      | succ j' => exact ih i' j' (fun hh => h (by rw [hh]))

/-- After `__setitem__` the key is in the shared set. -/
theorem dudSetItem_memStr (w : DUDWorld) (i : Nat) (inst : DUD) (k : String)
    (v : Value) (h : w.insts.get? i = some inst) :
    memStr (dudSetItem w i k v).userProps k = true := by
  unfold dudSetItem
  rw [h]
  by_cases hm : memStr (dudUpdateInst w i
      { inst with store := alSet inst.store k v }).userProps k
  · simp [hm]
  · simp only [hm, Bool.false_eq_true, if_false]
    exact memStr_append_self _ _
/-- `__setitem__` updates the instance's dict entry. -/
theorem dudSetItem_store (w : DUDWorld) (i : Nat) (inst : DUD) (k : String)
    (v : Value) (h : w.insts.get? i = some inst) :
    (dudSetItem w i k v).insts.get? i =
      some { inst with store := alSet inst.store k v } := by
  unfold dudSetItem
  rw [h]
  have hget : (dudUpdateInst w i
      { inst with store := alSet inst.store k v }).insts.get? i =
      some { inst with store := alSet inst.store k v } :=
    list_get?_set_self _ _ _ _ h
  by_cases hm : memStr (dudUpdateInst w i
      { inst with store := alSet inst.store k v }).userProps k
  · simp only [hm, if_true]
    exact hget
  · simp only [hm, Bool.false_eq_true, if_false]
    exact hget

/-- `__setitem__` leaves other instances untouched. -/
theorem dudSetItem_other (w : DUDWorld) (i j : Nat) (k : String) (v : Value)
    (h : ¬ i = j) :
    (dudSetItem w i k v).insts.get? j = w.insts.get? j := by
  unfold dudSetItem
  cases hg : w.insts.get? i with
  | none => rfl
  | some inst =>
    have hset : (dudUpdateInst w i
        { inst with store := alSet inst.store k v }).insts.get? j =
        w.insts.get? j := list_get?_set_ne _ _ _ _ h
    by_cases hm : memStr (dudUpdateInst w i
        { inst with store := alSet inst.store k v }).userProps k
    · simp only [hm, if_true]
      exact hset
    · simp only [hm, Bool.false_eq_true, if_false]
      exact hset

/-- The result of the `exclusive_user_data` loop extends its
accumulator. -/
theorem exclusiveFold_extends (store : List (String × Value)) :
    ∀ (ks : List String) (acc l : List (String × Value)),
      exclusiveFold store acc ks = Except.ok l →
      ∃ tail, l = acc ++ tail
  | [], acc, l, h => ⟨[], by rw [← (Except.ok.inj h)]; simp⟩
  | k :: ks, acc, l, h => by
    unfold exclusiveFold at h
    cases hg : alGet store k with
    | none => rw [hg] at h; cases h
    | some v =>
      rw [hg] at h
      obtain ⟨tail, htail⟩ := exclusiveFold_extends store ks (acc ++ [(k, v)]) l h
      exact ⟨(k, v) :: tail, by rw [htail]; simp⟩

/-- A key of the shared set appears in every successful
`exclusive_user_data` result. -/
theorem exclusiveFold_has_key (store : List (String × Value)) (k : String) :
    ∀ (ks : List String) (acc l : List (String × Value)),
      memStr ks k = true → exclusiveFold store acc ks = Except.ok l →
      l.any (fun p => p.1 == k) = true
  | [], acc, l, hm, _ => by cases hm
  | k' :: ks, acc, l, hm, h => by
    unfold exclusiveFold at h
    cases hg : alGet store k' with
    | none => rw [hg] at h; cases h
    | some v =>
      rw [hg] at h
      by_cases hk : k' = k
      · obtain ⟨tail, htail⟩ := exclusiveFold_extends store ks _ l h
        rw [htail]
        subst hk
        simp
      · have hm' : memStr ks k = true := by
          simp only [memStr, List.any_cons] at hm
          rcases Bool.or_eq_true_iff.mp hm with h1 | h1
          · exact absurd (beq_iff_eq.mp h1) hk
          · exact h1
        exact exclusiveFold_has_key store k ks _ l hm' h

/-- A key outside the shared set never appears in a successful
`exclusive_user_data` result. -/
theorem exclusiveFold_not_key (store : List (String × Value)) (k : String) :
    ∀ (ks : List String) (acc l : List (String × Value)),
      memStr ks k = false → acc.all (fun p => !(p.1 == k)) = true →
      exclusiveFold store acc ks = Except.ok l →
      l.all (fun p => !(p.1 == k)) = true
  | [], acc, l, _, hacc, h => by rw [← (Except.ok.inj h)]; exact hacc
  | k' :: ks, acc, l, hm, hacc, h => by
    unfold exclusiveFold at h
    cases hg : alGet store k' with
    | none => rw [hg] at h; cases h
    | some v =>
      rw [hg] at h
      simp only [memStr, List.any_cons, Bool.or_eq_false_iff,
        beq_eq_false_iff_ne, ne_eq] at hm
      refine exclusiveFold_not_key store k ks _ l ?_ ?_ h
      · simpa [memStr] using hm.2
      · simp only [List.all_append, hacc, Bool.true_and, List.all_cons,
          List.all_nil, Bool.and_true, Bool.not_eq_true', beq_eq_false_iff_ne,
          ne_eq]
        exact hm.1

/-! ## Claim theorems: defaults layer, resource identity, rename events -/

/-- C1: deleting a key that has a registered default restores exactly the
default value and removes the key from the user-set tracking (so it no
longer appears in `exclusive_user_data`); but deleting a key with *no*
registered default does not remove it — `del self[key]` re-invokes
`__delitem__` itself, and the call never returns (for every finite
recursion budget). -/
theorem c1_defaults_delete :
    (∀ (fuel : Nat) (w : DUDWorld) (i : Nat) (inst : DUD) (k : String)
        (dv : Value),
      w.insts.get? i = some inst → alGet inst.defaults k = some dv →
      ∃ w', dudDelItem fuel w i k = some (Except.ok w') ∧
        (∃ inst', w'.insts.get? i = some inst' ∧
          alGet inst'.store k = some dv) ∧
        memStr w'.userProps k = false ∧
        (∀ l, exclusiveUserData w' i = Except.ok l →
          l.all (fun p => !(p.1 == k)) = true)) ∧
    (∀ (fuel : Nat) (w : DUDWorld) (i : Nat) (inst : DUD) (k : String),
      w.insts.get? i = some inst → alGet inst.defaults k = none →
      dudDelItem fuel w i k = none) := by
  constructor
  · intro fuel w i inst k dv hi hd
    have hstore := dudSetItem_store w i inst k dv hi
    have hmem := dudSetItem_memStr w i inst k dv hi
    refine ⟨{ dudSetItem w i k dv with
        userProps := (dudSetItem w i k dv).userProps.filter
          (fun x => !(x == k)) }, ?_, ?_, ?_, ?_⟩
    · cases fuel <;>
        · simp only [dudDelItem, hi, hd, dudRemoveUserProp, hmem, if_true]
    · exact ⟨_, hstore, alGet_alSet_self _ _ _⟩
    · exact memStr_filter_ne _ _
    · intro l hl
      unfold exclusiveUserData at hl
      simp only [hstore] at hl
      exact exclusiveFold_not_key _ k _ [] l (memStr_filter_ne _ _) rfl hl
  · intro fuel w i inst k hi hd
    induction fuel with
    | zero => simp only [dudDelItem, hi, hd]
    | succ fuel ih => simp only [dudDelItem, hi, hd, ih]

/-- C1 witness: a concrete world with one instance whose defaults map `a`
to 1 and a user value 5 assigned. -/
theorem c1_defaults_delete_witness :
    (∃ w', dudDelItem 0
        (dudSetItem (dudInit { userProps := [], insts := [] }
          [("a", Value.int 1)]) 0 "a" (Value.int 5)) 0 "a" =
        some (Except.ok w') ∧
      (∃ inst', w'.insts.get? 0 = some inst' ∧
        alGet inst'.store "a" = some (Value.int 1)) ∧
      memStr w'.userProps "a" = false ∧
      (∀ l, exclusiveUserData w' 0 = Except.ok l →
        l.all (fun p => !(p.1 == "a")) = true)) ∧
    dudDelItem 7
      (dudSetItem (dudInit { userProps := [], insts := [] } []) 0 "x"
        (Value.int 1)) 0 "x" = none :=
  ⟨c1_defaults_delete.1 0 _ 0
      { store := alSet [("a", Value.int 1)] "a" (Value.int 5),
        defaults := [("a", Value.int 1)] } "a" (Value.int 1) rfl rfl,
    c1_defaults_delete.2 7 _ 0
      { store := alSet [] "x" (Value.int 1), defaults := [] } "x" rfl rfl⟩

/-- C9 counterexample: two `DefaultsUserData` instances with empty
defaults; setting `port` through the first marks the key in the shared
class-level set, but `exclusive_user_data` on the second instance does
not include it — it raises KeyError, because the second instance's dict
has no such key. -/
theorem c9_shared_userprops_counterexample :
    memStr (dudSetItem (dudInit (dudInit { userProps := [], insts := [] } [])
        []) 0 "port" (Value.int 80)).userProps "port" = true ∧
    exclusiveUserData
      (dudSetItem (dudInit (dudInit { userProps := [], insts := [] } []) [])
        0 "port" (Value.int 80)) 1 =
      Except.error (CErr.keyError "port") :=
  ⟨rfl, rfl⟩

/-- C9 amended: `user_properties` is class-level shared state — a key set
through one instance is marked user-set for every instance; on any other
instance whose dict does contain the key (e.g. any defaulted key),
`exclusive_user_data` then includes it, and when the dict lacks the key
the projection raises KeyError instead. -/
theorem c9_shared_userprops_amended :
    ∀ (w : DUDWorld) (i : Nat) (inst : DUD) (k : String) (v : Value),
      w.insts.get? i = some inst →
      memStr (dudSetItem w i k v).userProps k = true ∧
      (∀ (j : Nat) (l : List (String × Value)),
        exclusiveUserData (dudSetItem w i k v) j = Except.ok l →
        l.any (fun p => p.1 == k) = true) ∧
      (∀ j : Nat, ¬ i = j →
        (dudSetItem w i k v).insts.get? j = w.insts.get? j) := by
  intro w i inst k v hi
  have hmem := dudSetItem_memStr w i inst k v hi
  refine ⟨hmem, ?_, fun j hj => dudSetItem_other w i j k v hj⟩
  intro j l hl
  unfold exclusiveUserData at hl
  cases hg : (dudSetItem w i k v).insts.get? j with
  | none => rw [hg] at hl; cases hl
  | some instj =>
    rw [hg] at hl
    exact exclusiveFold_has_key _ k _ [] l hmem hl

/-- C9 amended witness: shared defaults containing the key — the other
instance then reports it as user-set with its own (default) value. -/
theorem c9_shared_userprops_amended_witness :
    memStr (dudSetItem (dudInit (dudInit { userProps := [], insts := [] }
        [("boot", Value.bool false)]) [("boot", Value.bool false)]) 0 "boot"
        (Value.bool true)).userProps "boot" = true ∧
    (∀ (j : Nat) (l : List (String × Value)),
      exclusiveUserData (dudSetItem (dudInit (dudInit
          { userProps := [], insts := [] } [("boot", Value.bool false)])
          [("boot", Value.bool false)]) 0 "boot" (Value.bool true)) j =
        Except.ok l →
      l.any (fun p => p.1 == "boot") = true) ∧
    (∀ j : Nat, ¬ 0 = j →
      (dudSetItem (dudInit (dudInit { userProps := [], insts := [] }
          [("boot", Value.bool false)]) [("boot", Value.bool false)]) 0
          "boot" (Value.bool true)).insts.get? j =
        (dudInit (dudInit { userProps := [], insts := [] }
          [("boot", Value.bool false)]) [("boot", Value.bool false)]).insts.get? j) :=
  c9_shared_userprops_amended _ 0
    { store := [("boot", Value.bool false)],
      defaults := [("boot", Value.bool false)] } "boot" (Value.bool true) rfl

/-- C4 counterexample: a resource with a resolved handle named old;
assigning `dataset_name = "new"` does *not* invalidate the cached handle —
the `dataset` getter still returns the handle named old while
`dataset_name` reads new. -/
theorem c4_dataset_identity_counterexample :
    (rsetDatasetName (rsetDataset { dsHandle := none, dsName := none }
        { name := "old" }) "new").dsHandle = some { name := "old" } ∧
    resourceDataset (fun n => { name := n })
        (rsetDatasetName (rsetDataset { dsHandle := none, dsName := none }
          { name := "old" }) "new") =
      Except.ok ({ name := "old" },
        rsetDatasetName (rsetDataset { dsHandle := none, dsName := none }
          { name := "old" }) "new") ∧
    assignedDatasetName (rsetDatasetName (rsetDataset
        { dsHandle := none, dsName := none } { name := "old" }) "new") =
      Except.ok "new" :=
  ⟨rfl, rfl, rfl⟩

/-- C4 amended: assigning the dataset handle clears the assigned name;
assigning the name does *not* clear a cached handle (the new name merely
takes precedence in `dataset_name` reads); reading `dataset_name` prefers
the explicitly assigned name, falls back to the resolved handle's name,
and fails with `IdentityUnresolved` when neither is available. -/
theorem c4_dataset_identity_amended :
    (∀ (r : ResourceSt) (d : DatasetHandle),
      (rsetDataset r d).dsName = none ∧
      (rsetDataset r d).dsHandle = some d) ∧
    (∀ (r : ResourceSt) (n : String),
      (rsetDatasetName r n).dsHandle = r.dsHandle ∧
      assignedDatasetName (rsetDatasetName r n) = Except.ok n) ∧
    (∀ (r : ResourceSt) (d : DatasetHandle), r.dsName = none →
      r.dsHandle = some d → assignedDatasetName r = Except.ok d.name) ∧
    (∀ r : ResourceSt, r.dsName = none → r.dsHandle = none →
      assignedDatasetName r = Except.error RErr.identityUnresolved) := by
  refine ⟨fun r d => ⟨rfl, rfl⟩, fun r n => ⟨rfl, rfl⟩, ?_, ?_⟩
  · intro r d h1 h2
    unfold assignedDatasetName
    rw [h1, h2]
  · intro r h1 h2
    unfold assignedDatasetName
    rw [h1, h2]

/-- C4 amended witness. -/
theorem c4_dataset_identity_amended_witness :
    ((rsetDataset { dsHandle := none, dsName := some "n0" }
        { name := "old" }).dsName = none ∧
      (rsetDataset { dsHandle := none, dsName := some "n0" }
        { name := "old" }).dsHandle = some { name := "old" }) ∧
    assignedDatasetName { dsHandle := some { name := "old" }, dsName := none } =
      Except.ok "old" ∧
    assignedDatasetName { dsHandle := none, dsName := none } =
      Except.error RErr.identityUnresolved :=
  ⟨c4_dataset_identity_amended.1 { dsHandle := none, dsName := some "n0" }
      { name := "old" },
    c4_dataset_identity_amended.2.2.1
      { dsHandle := some { name := "old" }, dsName := none } { name := "old" }
      rfl rfl,
    c4_dataset_identity_amended.2.2.2 { dsHandle := none, dsName := none }
      rfl rfl⟩

/-- C7 counterexample: a failing dataset rename yields the begin and fail
events and then the generator simply ends — the exception is consumed by
the `except` block, not re-raised: nothing escapes to the caller. -/
theorem c7_rename_fail_counterexample :
    storageRename
      { jailsRootName := "tank/iocage/jails",
        datasetRenameOutcome := Except.error "zfs rename failed",
        rootHasOrigin := false,
        getSnapshotOutcome := Except.ok (),
        snapParentName := "tank/iocage/releases/11.1",
        snapshotRenameOutcome := Except.ok () }
      { jailDatasetName := "tank/iocage/jails/old" } "new" =
      ([SEvent.dsBegin, SEvent.dsFail "zfs rename failed"],
        { jailDatasetName := "tank/iocage/jails/old" }, none) :=
  rfl

/-- C7 amended: a ZFS failure inside either rename phase's try block is
reported through that phase's begin/fail events and then swallowed — it is
never re-raised; a dataset-rename failure does not prevent the
snapshot-rename sub-sequence from running and reporting; the only
exception that can escape `rename` is a `get_snapshot` failure, which the
source invokes outside the try block. -/
theorem c7_rename_events_amended :
    ∀ (env : ZfsEnv) (st : StorageSt) (newName : String),
      (∀ e, env.datasetRenameOutcome = Except.error e →
        (storageRename env st newName).1 =
          [SEvent.dsBegin, SEvent.dsFail e] ++
            (renameSnapshotPhase env st).1) ∧
      (∀ e, env.rootHasOrigin = true → env.getSnapshotOutcome = Except.ok () →
        env.snapshotRenameOutcome = Except.error e →
        SEvent.snapFail e ∈ (storageRename env st newName).1 ∧
        (storageRename env st newName).2.2 = none) ∧
      ((storageRename env st newName).2.2 =
        (if env.rootHasOrigin then
          (match env.getSnapshotOutcome with
           | Except.error e => some e
           | Except.ok _ => none)
         else none)) := by
  intro env st newName
  refine ⟨?_, ?_, ?_⟩
  · intro e he
    simp only [storageRename, renameDatasetPhase, he]
  · intro e hor hgs hsr
    simp only [storageRename, renameDatasetPhase, renameSnapshotPhase, hor,
      hgs, hsr, Bool.not_true, Bool.false_eq_true, if_false]
    cases hdr : env.datasetRenameOutcome <;> simp
  · cases hor : env.rootHasOrigin <;>
      cases hgs : env.getSnapshotOutcome <;>
        cases hdr : env.datasetRenameOutcome <;>
          cases hsr : env.snapshotRenameOutcome <;>
            simp [storageRename, renameDatasetPhase, renameSnapshotPhase,
              hor, hgs, hdr, hsr]

/-- C7 amended witness: a failing snapshot rename on a cloned jail is
reported and swallowed. -/
theorem c7_rename_events_amended_witness :
    SEvent.snapFail "snap rename failed" ∈
      (storageRename
        { jailsRootName := "tank/iocage/jails",
          datasetRenameOutcome := Except.ok (),
          rootHasOrigin := true,
          getSnapshotOutcome := Except.ok (),
          snapParentName := "tank/iocage/releases/11.1",
          snapshotRenameOutcome := Except.error "snap rename failed" }
        { jailDatasetName := "tank/iocage/jails/old" } "new").1 ∧
    (storageRename
      { jailsRootName := "tank/iocage/jails",
        datasetRenameOutcome := Except.ok (),
        rootHasOrigin := true,
        getSnapshotOutcome := Except.ok (),
        snapParentName := "tank/iocage/releases/11.1",
        snapshotRenameOutcome := Except.error "snap rename failed" }
      { jailDatasetName := "tank/iocage/jails/old" } "new").2.2 = none :=
  (c7_rename_events_amended
    { jailsRootName := "tank/iocage/jails",
      datasetRenameOutcome := Except.ok (),
      rootHasOrigin := true,
      getSnapshotOutcome := Except.ok (),
      snapParentName := "tank/iocage/releases/11.1",
      snapshotRenameOutcome := Except.error "snap rename failed" }
    { jailDatasetName := "tank/iocage/jails/old" } "new").2.1
    "snap rename failed" rfl rfl rfl

/-! ## Character-level lemmas for the fstab round trip -/

theorem mk_toList (s : String) : String.mk s.toList = s := by
  cases s
  rfl

theorem string_toList_inj {s t : String} (h : s.toList = t.toList) : s = t := by
  rw [← mk_toList s, ← mk_toList t, h]

theorem splitP_cons (p : Char → Bool) (c : Char) (cs : List Char) :
    splitP p (c :: cs) =
      (if p c then [] :: splitP p cs
       else
        match splitP p cs with
        | [] => [[c]]
        | h :: t => (c :: h) :: t) := rfl

theorem splitP_no_sep (p : Char → Bool) :
    ∀ (l : List Char), (∀ c ∈ l, p c = false) → splitP p l = [l]
  | [], _ => rfl
  | c :: cs, h => by
    rw [splitP_cons, h c (by simp),
      splitP_no_sep p cs (fun x hx => h x (by simp [hx]))]
    simp

theorem splitP_append_sep (p : Char → Bool) (x : Char) (hx : p x = true) :
    ∀ (a b : List Char), (∀ c ∈ a, p c = false) →
      splitP p (a ++ x :: b) = a :: splitP p b
  | [], b, _ => by
    rw [List.nil_append, splitP_cons, hx]
    simp
  | c :: a', b, h => by
    have hc : p c = false := h c (by simp)
    have ih := splitP_append_sep p x hx a' b (fun y hy => h y (by simp [hy]))
    rw [List.cons_append, splitP_cons, hc, ih]
    simp

theorem splitP_joinWith (p : Char → Bool) (c : Char) (hc : p c = true) :
    ∀ (ls : List (List Char)), ls ≠ [] →
      (∀ l ∈ ls, ∀ ch ∈ l, p ch = false) →
      splitP p (joinWith c ls) = ls
  | [], hne, _ => absurd rfl hne
  | [l], _, h => by
    unfold joinWith
    exact splitP_no_sep p l (h l (by simp))
  | l :: l2 :: r, _, h => by
    unfold joinWith
    rw [splitP_append_sep p c hc l _ (h l (by simp)),
      splitP_joinWith p c hc (l2 :: r) (by simp)
        (fun x hx => h x (by simp at hx ⊢; tauto))]

theorem pySplitWs_joinTab :
    ∀ (fs : List (List Char)), fs ≠ [] →
      (∀ f ∈ fs, f ≠ [] ∧ ∀ ch ∈ f, isWs ch = false) →
      pySplitWsL (joinWith '\t' fs) = fs
  | [], hne, _ => absurd rfl hne
  | [f], _, h => by
    unfold joinWith pySplitWsL
    rw [splitP_no_sep isWs f (h f (by simp)).2]
    simp [(h f (by simp)).1]
  | f :: f2 :: r, _, h => by
    unfold joinWith pySplitWsL
    rw [splitP_append_sep isWs '\t' rfl f _ (h f (by simp)).2]
    have ih := pySplitWs_joinTab (f2 :: r) (by simp)
      (fun x hx => h x (by simp at hx ⊢; tauto))
    unfold pySplitWsL at ih
    simp only [List.filter_cons]
    rw [show (!(f.isEmpty)) = true from by
      simp [List.isEmpty_iff, (h f (by simp)).1]]
    rw [ih]
    simp

theorem splitFirstHash_cons (c : Char) (cs : List Char) :
    splitFirstHash (c :: cs) =
      (if c == '#' then some ([], cs)
       else
        match splitFirstHash cs with
        | none => none
        | some (a, b) => some (c :: a, b)) := rfl

theorem splitFirstHash_of_no_hash :
    ∀ (l : List Char), (∀ c ∈ l, ¬ c = '#') → splitFirstHash l = none
  | [], _ => rfl
  | c :: cs, h => by
    rw [splitFirstHash_cons,
      show (c == '#') = false from by simp [h c (by simp)],
      splitFirstHash_of_no_hash cs (fun x hx => h x (by simp [hx]))]
    simp

theorem splitFirstHash_append :
    ∀ (a b : List Char), (∀ c ∈ a, ¬ c = '#') →
      splitFirstHash (a ++ '#' :: b) = some (a, b)
  | [], b, _ => by
    rw [List.nil_append, splitFirstHash_cons]
    simp
  | c :: a', b, h => by
    rw [List.cons_append, splitFirstHash_cons,
      show (c == '#') = false from by simp [h c (by simp)],
      splitFirstHash_append a' b (fun x hx => h x (by simp [hx]))]
    simp

theorem dropWhile_eq_self_of_head (p : Char → Bool) :
    ∀ (l : List Char), (∀ c, l.head? = some c → p c = false) →
      l.dropWhile p = l
  | [], _ => rfl
  | c :: cs, h => by
    rw [List.dropWhile_cons, h c rfl]
    simp

theorem dropWhile_append_singleton (p : Char → Bool) (a : Char)
    (ha : p a = false) :
    ∀ (l : List Char), ∃ X, (l ++ [a]).dropWhile p = X ++ [a]
  | [] => ⟨[], by simp [List.dropWhile_cons, ha]⟩
  | c :: l => by
    by_cases hc : p c = true
    · obtain ⟨X, hX⟩ := dropWhile_append_singleton p a ha l
      exact ⟨X, by rw [List.cons_append, List.dropWhile_cons, hc]; simpa using hX⟩
    · exact ⟨c :: l, by
        rw [List.cons_append, List.dropWhile_cons,
          show p c = false from by simpa using hc]
        simp⟩

theorem stripWsL_head (c : Char) (cs : List Char) (hc : isWs c = false) :
    ∃ tl, stripWsL (c :: cs) = c :: tl := by
  unfold stripWsL
  rw [dropWhile_eq_self_of_head isWs (c :: cs)
    (fun x hx => by cases hx; exact hc)]
  rw [show (c :: cs).reverse = cs.reverse ++ [c] from by simp]
  obtain ⟨X, hX⟩ := dropWhile_append_singleton isWs c hc cs.reverse
  rw [hX]
  exact ⟨X.reverse, by simp⟩

theorem stripWsL_eq_self (l : List Char) (hne : l ≠ [])
    (hh : ∀ c, l.head? = some c → isWs c = false)
    (hl : ∀ c, l.getLast? = some c → isWs c = false) :
    stripWsL l = l := by
  unfold stripWsL
  rw [dropWhile_eq_self_of_head isWs l hh,
    dropWhile_eq_self_of_head isWs l.reverse
      (fun c hcc => hl c (by rwa [List.head?_reverse] at hcc))]
  simp

theorem stripWsL_append_space (l : List Char) (hne : l ≠ [])
    (hh : ∀ c, l.head? = some c → isWs c = false)
    (hl : ∀ c, l.getLast? = some c → isWs c = false) :
    stripWsL (l ++ [' ']) = l := by
  unfold stripWsL
  rw [dropWhile_eq_self_of_head isWs (l ++ [' '])
    (fun c hcc => hh c (by rwa [List.head?_append_of_ne_nil _ hne] at hcc))]
  rw [show (l ++ [' ']).reverse = ' ' :: l.reverse from by simp]
  rw [List.dropWhile_cons]
  rw [show isWs ' ' = true from rfl]
  simp only [if_true]
  rw [dropWhile_eq_self_of_head isWs l.reverse
    (fun c hcc => hl c (by rwa [List.head?_reverse] at hcc))]
  simp

theorem stripHashSpace_space_wrap (cm : List Char) (hne : cm ≠ [])
    (hh : ∀ c, cm.head? = some c → hashSpace c = false)
    (hl : ∀ c, cm.getLast? = some c → hashSpace c = false) :
    stripHashSpaceL (' ' :: cm) = cm := by
  unfold stripHashSpaceL
  rw [List.dropWhile_cons]
  rw [show hashSpace ' ' = true from rfl]
  simp only [if_true]
  rw [dropWhile_eq_self_of_head hashSpace cm hh]
  rw [dropWhile_eq_self_of_head hashSpace cm.reverse
    (fun c hcc => hl c (by rwa [List.head?_reverse] at hcc))]
  simp

/-- The structural facts packed into `wfField`. -/
theorem wfField_props (s : String) (h : wfField s = true) :
    s.toList ≠ [] ∧ ∀ ch ∈ s.toList, isWs ch = false ∧ ¬ ch = '#' := by
  unfold wfField at h
  simp only [Bool.and_eq_true, Bool.not_eq_true', List.all_eq_true,
    Bool.and_eq_true] at h
  refine ⟨by simpa [List.isEmpty_iff] using h.1, fun ch hch => ?_⟩
  obtain ⟨h1, h2⟩ := h.2 ch hch
  exact ⟨h1, by simpa using h2⟩

theorem joinWith_ne_nil (c : Char) :
    ∀ (fs : List (List Char)), fs ≠ [] → (∀ f ∈ fs, f ≠ []) →
      joinWith c fs ≠ []
  | [], hne, _ => absurd rfl hne
  | [f], _, h => by
    unfold joinWith
    exact h f (by simp)
  | f :: f2 :: r, _, h => by
    unfold joinWith
    cases hf : f with
    | nil => exact absurd hf (h f (by simp))
    | cons a b => simp

theorem mem_joinWith (c : Char) :
    ∀ (fs : List (List Char)) (ch : Char), ch ∈ joinWith c fs →
      ch = c ∨ ∃ f ∈ fs, ch ∈ f
  | [], ch, h => by cases h
  | [f], ch, h => by
    unfold joinWith at h
    exact Or.inr ⟨f, by simp, h⟩
  | f :: f2 :: r, ch, h => by
    unfold joinWith at h
    rw [List.mem_append] at h
    rcases h with h | h
    · exact Or.inr ⟨f, by simp, h⟩
    · rcases List.mem_cons.mp h with h | h
      · exact Or.inl h
      · rcases mem_joinWith c (f2 :: r) ch h with h | ⟨f', hf', hch⟩
        · exact Or.inl h
        · exact Or.inr ⟨f', by simp at hf' ⊢; tauto, hch⟩

theorem head?_joinWith (c : Char) :
    ∀ (fs : List (List Char)), fs ≠ [] → (∀ f ∈ fs, f ≠ []) →
      ∀ (g : List Char), fs.head? = some g →
        (joinWith c fs).head? = g.head?
  | [], hne, _, _, _ => absurd rfl hne
  | [f], _, _, g, hg => by
    unfold joinWith
    cases hg
    rfl
  | f :: f2 :: r, _, h, g, hg => by
    unfold joinWith
    cases hg
    rw [List.head?_append_of_ne_nil _ (h f (by simp))]

theorem getLast?_joinWith (c : Char) (hcws : isWs c = true) :
    ∀ (fs : List (List Char)),
      (∀ f ∈ fs, f ≠ [] ∧ ∀ ch ∈ f, isWs ch = false) →
      ∀ ch, (joinWith c fs).getLast? = some ch → isWs ch = false
  | [], _, ch, h => by cases h
  | [f], hf, ch, h => by
    unfold joinWith at h
    have h' : ch ∈ f.getLast? := Option.mem_def.mpr h
    obtain ⟨hh, rfl⟩ := List.mem_getLast?_eq_getLast h'
    exact (hf f (by simp)).2 _ (List.getLast_mem hh)
  | f :: f2 :: r, hf, ch, h => by
    unfold joinWith at h
    have hJ : joinWith c (f2 :: r) ≠ [] :=
      joinWith_ne_nil c (f2 :: r) (by simp)
        (fun x hx => (hf x (by simp at hx ⊢; tauto)).1)
    rw [List.getLast?_append_of_ne_nil _
        (by simp : (c :: joinWith c (f2 :: r)) ≠ []),
      show (c :: joinWith c (f2 :: r)) = [c] ++ joinWith c (f2 :: r) from rfl,
      List.getLast?_append_of_ne_nil _ hJ] at h
    exact getLast?_joinWith c hcws (f2 :: r)
      (fun x hx => hf x (by simp at hx ⊢; tauto)) ch h

/-- The six field-character lists of a mount line. -/
theorem wfCommentStr_props (c : String) (h : wfCommentStr c = true) :
    c.toList ≠ [] ∧
    (∀ ch, c.toList.head? = some ch → hashSpace ch = false) ∧
    (∀ ch, c.toList.getLast? = some ch → hashSpace ch = false) ∧
    (∀ ch ∈ c.toList, ¬ ch = '\n') ∧ ¬ c = "iocage-auto" := by
  unfold wfCommentStr at h
  cases hc : c.toList with
  | nil => rw [hc] at h; cases h
  | cons x xs =>
    rw [hc] at h
    simp only [Bool.and_eq_true, Bool.not_eq_true', List.all_eq_true,
      beq_eq_false_iff_ne, ne_eq] at h
    obtain ⟨⟨⟨hx, hlast⟩, hnl⟩, hia⟩ := h
    refine ⟨by simp, ?_, ?_, ?_, hia⟩
    · intro ch hch
      cases hch
      exact hx
    · intro ch hch
      rw [List.getLast?_cons] at hch
      cases hch
      simpa [List.getLastD_eq_getLast?] using hlast
    · intro ch hch
      simpa using hnl ch hch

/-- The facts about the tab-joined fields needed to re-parse a rendered
mount line: non-empty, head/last characters, no `#`, clean whitespace
splitting, strip stability. -/
theorem fieldsChars_facts (s d t o du p : String)
    (hfs : ∀ f ∈ [s.toList, d.toList, t.toList, o.toList, du.toList,
        p.toList], f ≠ [] ∧ ∀ ch ∈ f, isWs ch = false ∧ ¬ ch = '#') :
    fieldsChars s d t o du p ≠ [] ∧
    (∀ ch, (fieldsChars s d t o du p).head? = some ch →
      isWs ch = false ∧ ¬ ch = '#') ∧
    (∀ ch ∈ fieldsChars s d t o du p, ¬ ch = '#') ∧
    stripWsL (fieldsChars s d t o du p) = fieldsChars s d t o du p ∧
    stripWsL (fieldsChars s d t o du p ++ [' ']) = fieldsChars s d t o du p ∧
    pySplitWsL (fieldsChars s d t o du p) =
      [s.toList, d.toList, t.toList, o.toList, du.toList, p.toList] := by
  have hFne : fieldsChars s d t o du p ≠ [] :=
    joinWith_ne_nil '\t' _ (by simp) (fun f hf => (hfs f hf).1)
  have hhead : (fieldsChars s d t o du p).head? = s.toList.head? :=
    head?_joinWith '\t' _ (by simp) (fun f hf => (hfs f hf).1) s.toList rfl
  have hlast : ∀ ch, (fieldsChars s d t o du p).getLast? = some ch →
      isWs ch = false :=
    getLast?_joinWith '\t' rfl _
      (fun f hf => ⟨(hfs f hf).1, fun ch hch => ((hfs f hf).2 ch hch).1⟩)
  have hheadP : ∀ ch, (fieldsChars s d t o du p).head? = some ch →
      isWs ch = false ∧ ¬ ch = '#' := by
    intro ch hch
    rw [hhead] at hch
    cases hsl : s.toList with
    | nil => rw [hsl] at hch; cases hch
    | cons a b =>
      rw [hsl] at hch
      cases hch
      exact (hfs s.toList (by simp)).2 ch (by rw [hsl]; simp)
  have hnohash : ∀ ch ∈ fieldsChars s d t o du p, ¬ ch = '#' := by
    intro ch hch
    rcases mem_joinWith '\t' _ ch hch with rfl | ⟨f, hf, hchf⟩
    · decide
    · exact ((hfs f hf).2 ch hchf).2
  refine ⟨hFne, hheadP, hnohash, ?_, ?_, ?_⟩
  · exact stripWsL_eq_self _ hFne (fun ch hch => (hheadP ch hch).1) hlast
  · exact stripWsL_append_space _ hFne (fun ch hch => (hheadP ch hch).1) hlast
  · exact pySplitWs_joinTab _ (by simp)
      (fun f hf => ⟨(hfs f hf).1, fun ch hch => ((hfs f hf).2 ch hch).1⟩)

/-- The rendered mount line with no comment is exactly the tab-joined
fields. -/
theorem lineChars_mount_none (s d t o du p : String) :
    lineChars (FLine.mount s d t o du p none) = fieldsChars s d t o du p := by
  simp [lineChars, fieldsChars, joinWith]

/-- The rendered mount line with a comment. -/
theorem lineChars_mount_some (s d t o du p : String) (c : String) :
    lineChars (FLine.mount s d t o du p (some c)) =
      (fieldsChars s d t o du p ++ [' ']) ++ '#' :: ' ' :: c.toList := by
  simp [lineChars, fieldsChars, joinWith]

/-- A rendered mount line is not classified as a comment or blank line. -/
theorem mount_not_comment_line (s d t o du p : String) (cm : Option String)
    (hfs : ∀ f ∈ [s.toList, d.toList, t.toList, o.toList, du.toList,
        p.toList], f ≠ [] ∧ ∀ ch ∈ f, isWs ch = false ∧ ¬ ch = '#') :
    isCommentChars (lineChars (FLine.mount s d t o du p cm)) = false ∧
    isEmptyChars (lineChars (FLine.mount s d t o du p cm)) = false := by
  obtain ⟨hFne, hheadP, _, _, _, _⟩ := fieldsChars_facts s d t o du p hfs
  have hshape : ∃ c0 tl, lineChars (FLine.mount s d t o du p cm) =
      c0 :: tl ∧ isWs c0 = false ∧ ¬ c0 = '#' := by
    cases hF : fieldsChars s d t o du p with
    | nil => exact absurd hF hFne
    | cons c0 F' =>
      have hc0 := hheadP c0 (by rw [hF]; rfl)
      cases cm with
      | none =>
        exact ⟨c0, F', by rw [lineChars_mount_none, hF], hc0.1, hc0.2⟩
      | some c =>
        exact ⟨c0, F' ++ [' '] ++ '#' :: ' ' :: c.toList, by
          rw [lineChars_mount_some, hF]; simp, hc0.1, hc0.2⟩
  obtain ⟨c0, tl, hline, hws, hhash⟩ := hshape
  obtain ⟨tl', htl'⟩ := stripWsL_head c0 tl hws
  rw [hline]
  unfold isCommentChars isEmptyChars
  rw [htl']
  simp [hhash]

/-- `parseMountTail` on a body that strips to well-formed fields: the
duplicate check runs against the first effective entry and the line is
appended regardless of its outcome. -/
theorem parseMountTail_fields (B : List FLine) (st : PSt)
    (s d t o du p : String) (cm' : Option String) (body : List Char)
    (hfs : ∀ f ∈ [s.toList, d.toList, t.toList, o.toList, du.toList,
        p.toList], f ≠ [] ∧ ∀ ch ∈ f, isWs ch = false ∧ ¬ ch = '#')
    (hbody : stripWsL body = fieldsChars s d t o du p) :
    parseMountTail B st body cm' =
      (match fstabContains B st.lines d with
       | Except.error e => Except.error e
       | Except.ok dup =>
         Except.ok { st with
           lines := st.lines ++ [FLine.mount s d t o du p cm'],
           conflicts := if dup then st.conflicts ++ [d] else st.conflicts }) := by
  obtain ⟨hFne, _, _, _, _, hsplit⟩ := fieldsChars_facts s d t o du p hfs
  unfold parseMountTail
  rw [hbody, show (fieldsChars s d t o du p).isEmpty = false from by
    simpa [List.isEmpty_iff] using hFne]
  simp only [Bool.false_eq_true, if_false]
  rw [hsplit]
  simp only [mk_toList]
  cases hc : fstabContains B st.lines d with
  | error e => simp
  | ok dup => cases dup <;> simp

/-- `parseStep` on a rendered comment-free mount line reduces to
`parseMountTail` on the fields. -/
theorem parseStep_mount_none (B : List FLine) (st : PSt)
    (s d t o du p : String)
    (hfs : ∀ f ∈ [s.toList, d.toList, t.toList, o.toList, du.toList,
        p.toList], f ≠ [] ∧ ∀ ch ∈ f, isWs ch = false ∧ ¬ ch = '#') :
    parseStep B true st (lineChars (FLine.mount s d t o du p none)) =
      parseMountTail B st (fieldsChars s d t o du p) none := by
  obtain ⟨_, _, hnohash, _, _, _⟩ := fieldsChars_facts s d t o du p hfs
  obtain ⟨hnc, hne'⟩ := mount_not_comment_line s d t o du p none hfs
  unfold parseStep
  rw [hnc, hne']
  simp only [Bool.or_self, Bool.false_eq_true, if_false]
  rw [lineChars_mount_none,
    splitFirstHash_of_no_hash _ hnohash]

/-- `parseStep` on a rendered mount line with comment `c`: either the
auto-skip branch (when `c` is the marker) or `parseMountTail` with the
comment reattached. -/
theorem parseStep_mount_some (B : List FLine) (st : PSt)
    (s d t o du p : String) (c : String)
    (hfs : ∀ f ∈ [s.toList, d.toList, t.toList, o.toList, du.toList,
        p.toList], f ≠ [] ∧ ∀ ch ∈ f, isWs ch = false ∧ ¬ ch = '#')
    (hcne : c.toList ≠ [])
    (hch : ∀ ch, c.toList.head? = some ch → hashSpace ch = false)
    (hcl : ∀ ch, c.toList.getLast? = some ch → hashSpace ch = false) :
    parseStep B true st (lineChars (FLine.mount s d t o du p (some c))) =
      (if c = "iocage-auto" then
        (if st.autoFound then Except.ok st
         else Except.ok { st with
           autoFound := true, lines := st.lines ++ [FLine.auto] })
       else parseMountTail B st (fieldsChars s d t o du p ++ [' '])
         (some c)) := by
  obtain ⟨_, _, hnohash, _, _, _⟩ := fieldsChars_facts s d t o du p hfs
  obtain ⟨hnc, hne'⟩ := mount_not_comment_line s d t o du p (some c) hfs
  unfold parseStep
  rw [hnc, hne']
  simp only [Bool.or_self, Bool.false_eq_true, if_false]
  rw [lineChars_mount_some,
    splitFirstHash_append _ _ (by
      intro x hx
      rcases List.mem_append.mp hx with hx | hx
      · exact hnohash x hx
      · simp at hx
        rw [hx]
        decide)]
  simp only []
  rw [stripHashSpace_space_wrap c.toList hcne hch hcl]
  by_cases hia : c = "iocage-auto"
  · rw [if_pos hia,
      show (c.toList == "iocage-auto".toList) = true from by
        rw [hia]; simp]
    simp
  · rw [if_neg hia,
      show (c.toList == "iocage-auto".toList) = false from by
        simp only [beq_eq_false_iff_ne, ne_eq]
        intro hh
        exact hia (string_toList_inj hh)]
    simp only [Bool.true_and, Bool.false_eq_true, if_false]
    rw [show c.toList.isEmpty = false from by
      simpa [List.isEmpty_iff] using hcne]
    simp only [Bool.false_eq_true, if_false, mk_toList]

/-- `parseStep` on a verbatim-preserved comment or blank line. -/
theorem parseStep_comment (B : List FLine) (ia : Bool) (st : PSt) (t : String)
    (hwf : wfLine (FLine.comment t) = true) :
    parseStep B ia st t.toList =
      Except.ok { st with lines := st.lines ++ [FLine.comment t] } := by
  unfold wfLine at hwf
  simp only [Bool.and_eq_true] at hwf
  unfold parseStep
  rw [hwf.2]
  simp [mk_toList]

/-- `parseStep` on one generated basejail line: skipped, the first
occurrence leaving the placeholder. -/
theorem parseStep_auto (B : List FLine) (st : PSt) (b : FLine)
    (hb : isAutoLine b = true) :
    parseStep B true st (lineChars b) =
      (if st.autoFound then Except.ok st
       else Except.ok { st with
         autoFound := true, lines := st.lines ++ [FLine.auto] }) := by
  cases b with
  | comment t => cases hb
  | auto => cases hb
  | mount s d t o du p c =>
    unfold isAutoLine at hb
    simp only [Bool.and_eq_true, beq_iff_eq] at hb
    obtain ⟨⟨⟨⟨⟨⟨hs, hd⟩, ht⟩, ho⟩, hdu⟩, hp⟩, hc⟩ := hb
    subst hc
    have hfs : ∀ f ∈ [s.toList, d.toList, t.toList, o.toList, du.toList,
        p.toList], f ≠ [] ∧ ∀ ch ∈ f, isWs ch = false ∧ ¬ ch = '#' := by
      intro f hf
      simp only [List.mem_cons, List.not_mem_nil, or_false] at hf
      rcases hf with rfl | rfl | rfl | rfl | rfl | rfl <;>
        first
          | exact wfField_props _ hs
          | exact wfField_props _ hd
          | exact wfField_props _ ht
          | exact wfField_props _ ho
          | exact wfField_props _ hdu
          | exact wfField_props _ hp
    rw [parseStep_mount_some B st s d t o du p "iocage-auto" hfs
      (by decide)
      (by intro ch hch; cases hch; decide)
      (by intro ch hch;
          rw [show ("iocage-auto".toList.getLast? : Option Char) =
            some 'o' from rfl] at hch;
          cases hch; decide)]
    rw [if_pos rfl]

theorem toList_mk (l : List Char) : (String.mk l).toList = l := rfl

theorem head?_take {α : Type} (l : List α) (i : Nat) (hi : ¬ i = 0) :
    (l.take i).head? = l.head? := by
  cases l with
  | nil => simp
  | cons x xs =>
    cases i with
    | zero => exact absurd rfl hi
    | succ n => rfl

/-- Absence of the placeholder, as `all` and as `any`. -/
theorem all_not_auto (l : List FLine) :
    l.all (fun x => !isAuto x) = !(l.any isAuto) := by
  induction l with
  | nil => rfl
  | cons x l ih => simp [List.all_cons, List.any_cons, ih, Bool.not_or]

theorem any_auto_take (l : List FLine) (i : Nat) (h : l.any isAuto = false) :
    (l.take i).any isAuto = false := by
  cases hq : (l.take i).any isAuto
  · rfl
  · obtain ⟨x, hx, ha⟩ := List.any_eq_true.mp hq
    have : l.any isAuto = true :=
      List.any_eq_true.mpr ⟨x, List.take_subset i l hx, ha⟩
    rw [h] at this
    cases this

theorem all_wf_take (f : FLine → Bool) (l : List FLine) (i : Nat)
    (h : l.all f = true) : (l.take i).all f = true := by
  rw [List.all_eq_true] at h ⊢
  exact fun x hx => h x (List.take_subset i l hx)

/-- `__iter__` leaves a non-placeholder line alone. -/
theorem expandLine_not_auto (B : List FLine) (l : FLine)
    (h : isAuto l = false) : expandLine B l = [l] := by
  cases l with
  | mount s d t o du p c => rfl
  | comment t => rfl
  | auto => cases h

theorem flatMap_expand_no_auto (B : List FLine) :
    ∀ (l : List FLine), l.all (fun x => !isAuto x) = true →
      l.flatMap (expandLine B) = l
  | [], _ => rfl
  | x :: l, h => by
    simp only [List.all_cons, Bool.and_eq_true, Bool.not_eq_true'] at h
    rw [List.flatMap_cons, expandLine_not_auto B x h.1,
      flatMap_expand_no_auto B l h.2]
    rfl

/-- Without a stored placeholder the generated block is prepended. -/
theorem iterLines_no_auto (B : List FLine) (l : List FLine)
    (h : l.any isAuto = false) : iterLines B l = B ++ l := by
  unfold iterLines
  rw [h]
  simp

/-- With exactly one placeholder the generated block replaces it in
position. -/
theorem iterLines_with_auto (B pre post : List FLine)
    (hpre : pre.all (fun x => !isAuto x) = true)
    (hpost : post.all (fun x => !isAuto x) = true) :
    iterLines B (pre ++ FLine.auto :: post) = pre ++ B ++ post := by
  unfold iterLines
  rw [show (pre ++ FLine.auto :: post).any isAuto = true from
    List.any_eq_true.mpr ⟨FLine.auto, by simp, rfl⟩]
  simp only [if_true]
  rw [List.flatMap_append, flatMap_expand_no_auto B pre hpre,
    List.flatMap_cons, flatMap_expand_no_auto B post hpost]
  simp [expandLine, List.append_assoc]

theorem mem_iterLines (B l : List FLine) (x : FLine)
    (hx : x ∈ iterLines B l) : x ∈ B ∨ x ∈ l := by
  unfold iterLines at hx
  by_cases h : l.any isAuto = true
  · simp only [h, if_true] at hx
    obtain ⟨y, hy, hxy⟩ := List.mem_flatMap.mp hx
    cases y with
    | auto => exact Or.inl hxy
    | mount s d t o du p c =>
      rw [expandLine_not_auto B (FLine.mount s d t o du p c) rfl] at hxy
      simp only [List.mem_singleton] at hxy
      exact Or.inr (hxy ▸ hy)
    | comment t =>
      rw [expandLine_not_auto B (FLine.comment t) rfl] at hxy
      simp only [List.mem_singleton] at hxy
      exact Or.inr (hxy ▸ hy)
  · simp only [h, if_false] at hx
    exact List.mem_append.mp hx

/-- Every line of the generated block carries a destination. -/
theorem destinationOf_of_autoLine (b : FLine) (hb : isAutoLine b = true) :
    ¬ destinationOf b = none := by
  cases b with
  | mount s d t o du p c => simp [destinationOf]
  | comment t => cases hb
  | auto => cases hb

/-- The duplicate check cannot raise when the first effective entry (if
any) has a destination. -/
theorem fstabContains_ok (B stored : List FLine)
    (h : ∀ m, (iterLines B stored).head? = some m → ¬ destinationOf m = none)
    (d : String) : ∃ b, fstabContains B stored d = Except.ok b := by
  unfold fstabContains
  cases hi : iterLines B stored with
  | nil => exact ⟨false, rfl⟩
  | cons m r =>
    have hm := h m (by rw [hi]; rfl)
    cases hd0 : destinationOf m with
    | none => exact absurd hd0 hm
    | some d0 => exact ⟨d == d0, by simp [hd0]⟩

/-- Rendered stored lines and generated lines contain no newline. -/
theorem lineChars_no_newline (l : FLine)
    (h : wfLine l = true ∨ isAutoLine l = true) :
    ∀ ch ∈ lineChars l, ¬ ch = '\n' := by
  have hws : ∀ ch : Char, isWs ch = false → ¬ ch = '\n' := by
    intro ch hch hne
    rw [hne] at hch
    exact absurd hch (by decide)
  cases l with
  | auto => intro ch hch; cases hch
  | comment t =>
    intro ch hch
    rcases h with h | h
    · unfold wfLine at h
      simp only [Bool.and_eq_true, List.all_eq_true] at h
      simpa using h.1 ch hch
    · cases h
  | mount s d t o du p cm =>
    have hparts : (wfField s = true ∧ wfField d = true ∧ wfField t = true ∧
        wfField o = true ∧ wfField du = true ∧ wfField p = true) ∧
        ∀ c', cm = some c' → ∀ ch ∈ c'.toList, ¬ ch = '\n' := by
      rcases h with h | h
      · unfold wfLine at h
        simp only [Bool.and_eq_true] at h
        obtain ⟨⟨⟨⟨⟨⟨hs, hd⟩, ht⟩, ho⟩, hdu⟩, hp2⟩, hcm⟩ := h
        refine ⟨⟨hs, hd, ht, ho, hdu, hp2⟩, fun c' hc' ch hch => ?_⟩
        subst hc'
        exact (wfCommentStr_props c' hcm).2.2.2.1 ch hch
      · unfold isAutoLine at h
        simp only [Bool.and_eq_true, beq_iff_eq] at h
        obtain ⟨⟨⟨⟨⟨⟨hs, hd⟩, ht⟩, ho⟩, hdu⟩, hp2⟩, hcm⟩ := h
        refine ⟨⟨hs, hd, ht, ho, hdu, hp2⟩, fun c' hc' ch hch => ?_⟩
        rw [hcm] at hc'
        cases hc'
        intro hne
        rw [hne] at hch
        exact absurd hch (by decide)
    obtain ⟨⟨hs, hd, ht, ho, hdu, hp2⟩, hcmnl⟩ := hparts
    have hfieldmem : ∀ ch ∈ fieldsChars s d t o du p, ¬ ch = '\n' := by
      intro ch hch
      rcases mem_joinWith '\t' _ ch hch with rfl | ⟨f, hf, hchf⟩
      · decide
      · simp only [List.mem_cons, List.not_mem_nil, or_false] at hf
        rcases hf with rfl | rfl | rfl | rfl | rfl | rfl
        · exact hws ch ((wfField_props s hs).2 ch hchf).1
        · exact hws ch ((wfField_props d hd).2 ch hchf).1
        · exact hws ch ((wfField_props t ht).2 ch hchf).1
        · exact hws ch ((wfField_props o ho).2 ch hchf).1
        · exact hws ch ((wfField_props du hdu).2 ch hchf).1
        · exact hws ch ((wfField_props p hp2).2 ch hchf).1
    intro ch hch
    cases cm with
    | none =>
      rw [lineChars_mount_none] at hch
      exact hfieldmem ch hch
    | some c' =>
      rw [lineChars_mount_some] at hch
      rcases List.mem_append.mp hch with hch | hch
      · rcases List.mem_append.mp hch with hch | hch
        · exact hfieldmem ch hch
        · simp only [List.mem_singleton] at hch
          subst hch
          decide
      · rcases List.mem_cons.mp hch with rfl | hch
        · decide
        · rcases List.mem_cons.mp hch with rfl | hch
          · decide
          · exact hcmnl c' rfl ch hch

theorem parseFold_nil (B : List FLine) (ia : Bool) (st : PSt) :
    parseFold B ia st [] = Except.ok st := rfl

theorem parseFold_cons (B : List FLine) (ia : Bool) (st : PSt)
    (l : List Char) (ls : List (List Char)) :
    parseFold B ia st (l :: ls) =
      (match parseStep B ia st l with
       | Except.error e => Except.error e
       | Except.ok st2 => parseFold B ia st2 ls) := rfl

/-- `parseStep` on the rendering of any well-formed stored mount line:
the duplicate check runs against the first effective entry, and the line
itself is reproduced and appended whatever the check's boolean outcome. -/
theorem parseStep_wf_mount (B : List FLine) (st : PSt)
    (s d t o du p : String) (cm : Option String)
    (hwf : wfLine (FLine.mount s d t o du p cm) = true) :
    parseStep B true st (lineChars (FLine.mount s d t o du p cm)) =
      (match fstabContains B st.lines d with
       | Except.error e => Except.error e
       | Except.ok dup =>
         Except.ok { st with
           lines := st.lines ++ [FLine.mount s d t o du p cm],
           conflicts := if dup then st.conflicts ++ [d] else st.conflicts }) := by
  unfold wfLine at hwf
  simp only [Bool.and_eq_true] at hwf
  obtain ⟨⟨⟨⟨⟨⟨hs, hd⟩, ht⟩, ho⟩, hdu⟩, hp2⟩, hcm⟩ := hwf
  have hfs : ∀ f ∈ [s.toList, d.toList, t.toList, o.toList, du.toList,
      p.toList], f ≠ [] ∧ ∀ ch ∈ f, isWs ch = false ∧ ¬ ch = '#' := by
    intro f hf
    simp only [List.mem_cons, List.not_mem_nil, or_false] at hf
    rcases hf with rfl | rfl | rfl | rfl | rfl | rfl <;>
      first
        | exact wfField_props _ hs
        | exact wfField_props _ hd
        | exact wfField_props _ ht
        | exact wfField_props _ ho
        | exact wfField_props _ hdu
        | exact wfField_props _ hp2
  cases cm with
  | none =>
    rw [parseStep_mount_none B st s d t o du p hfs]
    exact parseMountTail_fields B st s d t o du p none _ hfs
      ((fieldsChars_facts s d t o du p hfs).2.2.2.1)
  | some c =>
    obtain ⟨hcne, hch, hcl, _, hia⟩ := wfCommentStr_props c hcm
    rw [parseStep_mount_some B st s d t o du p c hfs hcne hch hcl, if_neg hia]
    exact parseMountTail_fields B st s d t o du p (some c) _ hfs
      ((fieldsChars_facts s d t o du p hfs).2.2.2.2.1)

/-- With the placeholder already stored, further generated lines are
skipped without any state change. -/
theorem parseFold_autoSkip (B : List FLine) :
    ∀ (A : List FLine) (st : PSt) (rest : List (List Char)),
      A.all isAutoLine = true → st.autoFound = true →
      parseFold B true st (A.map lineChars ++ rest) =
        parseFold B true st rest
  | [], _, _, _, _ => rfl
  | b :: A, st, rest, hA, hst => by
    simp only [List.all_cons, Bool.and_eq_true] at hA
    rw [List.map_cons, List.cons_append, parseFold_cons,
      parseStep_auto B st b hA.1, if_pos hst]
    simp only []
    exact parseFold_autoSkip B A st rest hA.2 hst

/-- A non-empty block of generated lines collapses to a single stored
placeholder at the position of its first line. -/
theorem parseFold_autoBlock (B : List FLine) (b : FLine) (A : List FLine)
    (st : PSt) (rest : List (List Char))
    (hA : (b :: A).all isAutoLine = true) (hst : st.autoFound = false) :
    parseFold B true st ((b :: A).map lineChars ++ rest) =
      parseFold B true
        { st with autoFound := true, lines := st.lines ++ [FLine.auto] }
        rest := by
  simp only [List.all_cons, Bool.and_eq_true] at hA
  rw [List.map_cons, List.cons_append, parseFold_cons,
    parseStep_auto B st b hA.1, if_neg (by simp [hst])]
  simp only []
  exact parseFold_autoSkip B A _ rest hA.2 rfl

/-- Splitting a table at its first placeholder. -/
theorem split_first_auto :
    ∀ (l : List FLine), l.any isAuto = true →
      ∃ pre post, l = pre ++ FLine.auto :: post ∧
        pre.all (fun x => !isAuto x) = true
  | [], h => by cases h
  | x :: l, h => by
    cases x with
    | auto => exact ⟨[], l, rfl, rfl⟩
    | mount s d t o du p c =>
      have h2 : l.any isAuto = true := by
        simpa [List.any_cons, isAuto] using h
      obtain ⟨pre, post, heq, hpre⟩ := split_first_auto l h2
      exact ⟨FLine.mount s d t o du p c :: pre, post, by rw [heq]; rfl,
        by simp only [List.all_cons, Bool.and_eq_true]; exact ⟨rfl, hpre⟩⟩
    | comment t =>
      have h2 : l.any isAuto = true := by
        simpa [List.any_cons, isAuto] using h
      obtain ⟨pre, post, heq, hpre⟩ := split_first_auto l h2
      exact ⟨FLine.comment t :: pre, post, by rw [heq]; rfl,
        by simp only [List.all_cons, Bool.and_eq_true]; exact ⟨rfl, hpre⟩⟩

/-- Walking the parse loop over the renderings of a placeholder-free
segment of well-formed stored lines: every line is reproduced and
appended in order (with some destinations possibly logged as conflicts),
provided the duplicate check stays raise-free along the way. -/
theorem parseFold_walk (B : List FLine) :
    ∀ (q : List FLine) (st : PSt) (rest : List (List Char)),
      q.all wfLine = true →
      q.all (fun x => !isAuto x) = true →
      (∀ i l d, q[i]? = some l → destinationOf l = some d →
        ∃ b, fstabContains B (st.lines ++ q.take i) d = Except.ok b) →
      ∃ cs, parseFold B true st (q.map lineChars ++ rest) =
        parseFold B true
          { st with lines := st.lines ++ q, conflicts := st.conflicts ++ cs }
          rest
  | [], st, rest, _, _, _ => ⟨[], by simp⟩
  | l0 :: q, st, rest, hwf, hna, hsafe => by
    simp only [List.all_cons, Bool.and_eq_true, Bool.not_eq_true'] at hwf hna
    rw [List.map_cons, List.cons_append, parseFold_cons]
    cases l0 with
    | auto => exact absurd hna.1 (by simp [isAuto])
    | comment t =>
      rw [show lineChars (FLine.comment t) = t.toList from rfl,
        parseStep_comment B true st t hwf.1]
      simp only []
      obtain ⟨cs, hcs⟩ := parseFold_walk B q
        { st with lines := st.lines ++ [FLine.comment t] } rest hwf.2 hna.2
        (fun i l d hi hd => by
          simpa [List.take_succ_cons, List.append_assoc] using
            hsafe (i + 1) l d (by simpa using hi) hd)
      refine ⟨cs, ?_⟩
      rw [hcs]
      simp only [List.append_assoc, List.singleton_append]
    | mount s d t o du p cm =>
      obtain ⟨b, hb⟩ := hsafe 0 (FLine.mount s d t o du p cm) d (by simp) rfl
      simp only [List.take_zero, List.append_nil] at hb
      rw [parseStep_wf_mount B st s d t o du p cm hwf.1, hb]
      simp only []
      have hcf : (if b then st.conflicts ++ [d] else st.conflicts) =
          st.conflicts ++ (if b then [d] else []) := by
        cases b <;> simp
      rw [hcf]
      obtain ⟨cs, hcs⟩ := parseFold_walk B q
        { st with
          lines := st.lines ++ [FLine.mount s d t o du p cm],
          conflicts := st.conflicts ++ (if b then [d] else []) } rest
        hwf.2 hna.2
        (fun i l d2 hi hd2 => by
          simpa [List.take_succ_cons, List.append_assoc] using
            hsafe (i + 1) l d2 (by simpa using hi) hd2)
      refine ⟨(if b then [d] else []) ++ cs, ?_⟩
      rw [hcs]
      simp only [List.append_assoc, List.singleton_append]

/-- The round-trip behind C5: parsing the rendering of a well-formed
table succeeds when the first rendered line (if any) carries a
destination; re-rendering the parsed table is byte-identical, and when
the table held a placeholder and the generated block is non-empty the
parsed table is exactly the original. -/
theorem fstab_roundtrip (B p : List FLine)
    (hB : autoWF B = true) (hp : wfTable p)
    (hne : ¬ iterLines B p = [])
    (hhead : ((iterLines B p).head?.all
      fun m => (destinationOf m).isSome) = true) :
    ∃ st, parseLines B true (renderText B p) = Except.ok st ∧
      renderText B st.lines = renderText B p ∧
      (p.any isAuto = true → ¬ B = [] → st.lines = p) := by
  obtain ⟨hpall, hpcount⟩ := hp
  have hBall : ∀ b ∈ B, isAutoLine b = true := List.all_eq_true.mp hB
  have hhead2 : ∀ m, (iterLines B p).head? = some m →
      ¬ destinationOf m = none := by
    intro m hm
    rw [hm] at hhead
    have h2 : (destinationOf m).isSome = true := hhead
    exact Option.isSome_iff_ne_none.mp h2
  have hsplitN : splitNl (renderChars B p) = (iterLines B p).map lineChars := by
    unfold splitNl renderChars
    refine splitP_joinWith (fun c => c == '\n') '\n' rfl _
      (by simp only [ne_eq, List.map_eq_nil]; exact hne) ?_
    intro l hl ch hch
    obtain ⟨x, hx, rfl⟩ := List.mem_map.mp hl
    have hm : wfLine x = true ∨ isAutoLine x = true := by
      rcases mem_iterLines B p x hx with hxB | hxp
      · exact Or.inr (hBall x hxB)
      · exact Or.inl (List.all_eq_true.mp hpall x hxp)
    simpa using lineChars_no_newline x hm ch hch
  have hstart : parseLines B true (renderText B p) =
      parseFold B true pstInit ((iterLines B p).map lineChars) := by
    unfold parseLines renderText
    rw [toList_mk, hsplitN]
  cases hauto : p.any isAuto with
  | false =>
    have hpna : p.all (fun x => !isAuto x) = true := by
      rw [all_not_auto, hauto]
      rfl
    have hIL : iterLines B p = B ++ p := iterLines_no_auto B p hauto
    cases B with
    | nil =>
      obtain ⟨cs, hw⟩ := parseFold_walk [] p pstInit [] hpall hpna
        (fun i l d hi hd => by
          rw [show pstInit.lines ++ p.take i = p.take i from rfl]
          apply fstabContains_ok
          intro m hm
          rw [iterLines_no_auto [] _ (any_auto_take p i hauto),
            List.nil_append] at hm
          cases i with
          | zero =>
            rw [List.take_zero] at hm
            cases hm
          | succ n =>
            rw [head?_take p (n + 1) (by simp)] at hm
            apply hhead2 m
            rw [hIL, List.nil_append]
            exact hm)
      refine ⟨⟨p, false, cs, 0⟩, ?_, ?_, ?_⟩
      · rw [hstart, hIL, List.nil_append,
          show (List.map lineChars p : List (List Char)) =
            List.map lineChars p ++ [] from (List.append_nil _).symm,
          hw, parseFold_nil]
        rfl
      · rfl
      · intro hc _
        simp at hc
    | cons b B2 =>
      have hB2all : (b :: B2).all isAutoLine = true := hB
      obtain ⟨cs, hw⟩ := parseFold_walk (b :: B2) p
        ⟨[FLine.auto], true, [], 0⟩ [] hpall hpna
        (fun i l d hi hd => by
          rw [show (⟨[FLine.auto], true, [], 0⟩ : PSt).lines ++ p.take i =
            [] ++ FLine.auto :: p.take i from rfl]
          apply fstabContains_ok
          intro m hm
          rw [iterLines_with_auto (b :: B2) [] (p.take i) rfl
            (by rw [all_not_auto, any_auto_take p i hauto]; rfl)] at hm
          simp only [List.nil_append, List.cons_append, List.head?_cons] at hm
          cases hm
          exact destinationOf_of_autoLine b (hBall b (by simp)))
      refine ⟨⟨FLine.auto :: p, true, cs, 0⟩, ?_, ?_, ?_⟩
      · rw [hstart, hIL, List.map_append,
          show (List.map lineChars p : List (List Char)) =
            List.map lineChars p ++ [] from (List.append_nil _).symm,
          parseFold_autoBlock (b :: B2) b B2 pstInit
            (List.map lineChars p ++ []) hB2all rfl]
        show parseFold (b :: B2) true ⟨[FLine.auto], true, [], 0⟩
          (List.map lineChars p ++ []) =
          Except.ok (⟨FLine.auto :: p, true, cs, 0⟩ : PSt)
        rw [hw, parseFold_nil]
        rfl
      · have h1 : iterLines (b :: B2) (FLine.auto :: p) = (b :: B2) ++ p := by
          rw [show FLine.auto :: p = [] ++ FLine.auto :: p from rfl,
            iterLines_with_auto (b :: B2) [] p rfl hpna]
          simp
        unfold renderText renderChars
        rw [show (⟨FLine.auto :: p, true, cs, 0⟩ : PSt).lines =
          FLine.auto :: p from rfl, h1, hIL]
      · intro hc _
        simp at hc
  | true =>
    obtain ⟨pre, post, heq, hpre⟩ := split_first_auto p hauto
    have hpreany : pre.any isAuto = false := by
      rw [all_not_auto] at hpre
      simpa using hpre
    have hpostc : post.countP isAuto = 0 := by
      rw [heq, List.countP_append, List.countP_cons_of_pos _ _ (by rfl)]
        at hpcount
      omega
    have hpost : post.all (fun x => !isAuto x) = true := by
      rw [List.all_eq_true]
      intro x hx
      have h2 := List.countP_eq_zero.mp hpostc x hx
      simpa using h2
    have hpostany : post.any isAuto = false := by
      rw [all_not_auto] at hpost
      simpa using hpost
    have hwfsplit : pre.all wfLine = true ∧ post.all wfLine = true := by
      rw [heq] at hpall
      simp only [List.all_append, List.all_cons, Bool.and_eq_true] at hpall
      exact ⟨hpall.1, hpall.2.2⟩
    have hIL : iterLines B p = pre ++ B ++ post := by
      rw [heq]
      exact iterLines_with_auto B pre post hpre hpost
    cases B with
    | nil =>
      obtain ⟨cs1, hw1⟩ := parseFold_walk [] pre pstInit
        (List.map lineChars post ++ []) hwfsplit.1 hpre
        (fun i l d hi hd => by
          rw [show pstInit.lines ++ pre.take i = pre.take i from rfl]
          apply fstabContains_ok
          intro m hm
          rw [iterLines_no_auto [] _ (any_auto_take pre i hpreany),
            List.nil_append] at hm
          cases i with
          | zero =>
            rw [List.take_zero] at hm
            cases hm
          | succ n =>
            rw [head?_take pre (n + 1) (by simp)] at hm
            have hpne : ¬ pre = [] := by
              intro h0
              rw [h0] at hm
              cases hm
            apply hhead2 m
            rw [hIL, List.append_nil, List.head?_append_of_ne_nil _ hpne]
            exact hm)
      obtain ⟨cs2, hw2⟩ := parseFold_walk [] post
        ⟨pre, false, cs1, 0⟩ [] hwfsplit.2 hpost
        (fun i l d hi hd => by
          rw [show (⟨pre, false, cs1, 0⟩ : PSt).lines ++ post.take i =
            pre ++ post.take i from rfl]
          apply fstabContains_ok
          intro m hm
          rw [iterLines_no_auto [] _ (by
              simp [List.any_append, hpreany, any_auto_take post i hpostany]),
            List.nil_append] at hm
          apply hhead2 m
          rw [hIL, List.append_nil]
          cases hpre0 : pre with
          | nil =>
            rw [hpre0, List.nil_append] at hm
            rw [List.nil_append]
            cases i with
            | zero =>
              rw [List.take_zero] at hm
              cases hm
            | succ n =>
              rw [head?_take post (n + 1) (by simp)] at hm
              exact hm
          | cons x pre2 =>
            rw [hpre0, List.cons_append, List.head?_cons] at hm
            rw [List.cons_append, List.head?_cons]
            exact hm)
      refine ⟨⟨pre ++ post, false, cs1 ++ cs2, 0⟩, ?_, ?_, ?_⟩
      · rw [hstart, hIL, List.append_nil, List.map_append,
          show (List.map lineChars post : List (List Char)) =
            List.map lineChars post ++ [] from (List.append_nil _).symm,
          hw1]
        show parseFold [] true ⟨pre, false, cs1, 0⟩
          (List.map lineChars post ++ []) =
          Except.ok (⟨pre ++ post, false, cs1 ++ cs2, 0⟩ : PSt)
        rw [hw2, parseFold_nil]
      · unfold renderText renderChars
        rw [show (⟨pre ++ post, false, cs1 ++ cs2, 0⟩ : PSt).lines =
          pre ++ post from rfl,
          iterLines_no_auto [] _ (by simp [List.any_append, hpreany,
            hpostany]), hIL]
        simp
      · intro _ hb
        exact absurd rfl hb
    | cons b B2 =>
      have hB2all : (b :: B2).all isAutoLine = true := hB
      obtain ⟨cs1, hw1⟩ := parseFold_walk (b :: B2) pre pstInit
        (List.map lineChars (b :: B2) ++ (List.map lineChars post ++ []))
        hwfsplit.1 hpre
        (fun i l d hi hd => by
          rw [show pstInit.lines ++ pre.take i = pre.take i from rfl]
          apply fstabContains_ok
          intro m hm
          rw [iterLines_no_auto (b :: B2) _ (any_auto_take pre i hpreany),
            List.cons_append, List.head?_cons] at hm
          cases hm
          exact destinationOf_of_autoLine b (hBall b (by simp)))
      obtain ⟨cs2, hw2⟩ := parseFold_walk (b :: B2) post
        ⟨pre ++ [FLine.auto], true, cs1, 0⟩ [] hwfsplit.2 hpost
        (fun i l d hi hd => by
          rw [show (⟨pre ++ [FLine.auto], true, cs1, 0⟩ : PSt).lines ++
            post.take i = pre ++ FLine.auto :: post.take i from by simp]
          apply fstabContains_ok
          intro m hm
          rw [iterLines_with_auto (b :: B2) pre (post.take i) hpre
            (by rw [all_not_auto, any_auto_take post i hpostany]; rfl)] at hm
          cases hpre0 : pre with
          | nil =>
            rw [hpre0] at hm
            simp only [List.nil_append, List.cons_append,
              List.head?_cons] at hm
            cases hm
            exact destinationOf_of_autoLine b (hBall b (by simp))
          | cons x pre2 =>
            rw [hpre0] at hm
            simp only [List.cons_append, List.head?_cons] at hm
            apply hhead2 m
            rw [hIL, hpre0]
            simp only [List.cons_append, List.head?_cons]
            exact hm)
      refine ⟨⟨p, true, cs1 ++ cs2, 0⟩, ?_, ?_, ?_⟩
      · rw [hstart, hIL, List.map_append, List.map_append,
          List.append_assoc,
          show (List.map lineChars post : List (List Char)) =
            List.map lineChars post ++ [] from (List.append_nil _).symm,
          hw1]
        show parseFold (b :: B2) true ⟨pre, false, cs1, 0⟩
          (List.map lineChars (b :: B2) ++ (List.map lineChars post ++ [])) =
          Except.ok (⟨p, true, cs1 ++ cs2, 0⟩ : PSt)
        rw [parseFold_autoBlock (b :: B2) b B2
          ⟨pre, false, cs1, 0⟩ (List.map lineChars post ++ []) hB2all rfl]
        show parseFold (b :: B2) true ⟨pre ++ [FLine.auto], true, cs1, 0⟩
          (List.map lineChars post ++ []) =
          Except.ok (⟨p, true, cs1 ++ cs2, 0⟩ : PSt)
        rw [hw2, parseFold_nil]
        simp [heq, List.append_assoc]
      · rfl
      · intro _ _
        rfl

/-- C5: the round-trip as claimed holds only on a restricted domain.
Parsing the rendering of a well-formed table and re-rendering is
byte-identical, and a placeholder block is reproduced in position (or
the generated lines prepended when no placeholder was stored) — but only
when the first rendered line carries a destination: the duplicate check
of `parse_lines` reads `entry["destination"]` off the *first* effective
line, so the rendering of a table whose first line is a comment (with no
generated lines attached) makes parsing raise KeyError instead of
round-tripping, refuting the claim's universal form. -/
theorem c5_fstab_roundtrip :
    (∀ (B p : List FLine), autoWF B = true → wfTable p →
      ¬ iterLines B p = [] →
      ((iterLines B p).head?.all fun m => (destinationOf m).isSome) = true →
      ∃ st, parseLines B true (renderText B p) = Except.ok st ∧
        renderText B st.lines = renderText B p ∧
        (p.any isAuto = true → ¬ B = [] → st.lines = p)) ∧
    (∀ (B q : List FLine), q.any isAuto = false → iterLines B q = B ++ q) ∧
    parseLines [] true (renderText []
        [FLine.comment "# hi",
         FLine.mount "a" "/x" "nullfs" "ro" "0" "0" none]) =
      Except.error (CErr.keyError "destination") := by
  refine ⟨fstab_roundtrip, iterLines_no_auto, ?_⟩
  rfl

/-- Witness: a table of one commented mount line, one placeholder and one
trailing comment line, with a one-line generated block, satisfies the
round-trip hypotheses; instantiating the round-trip part gives its
conclusion for that table. -/
theorem c5_fstab_roundtrip_witness :
    (autoWF [FLine.mount "b" "/base" "nullfs" "ro" "0" "0"
        (some "iocage-auto")] = true ∧
      wfTable [FLine.mount "a" "/x" "nullfs" "rw" "0" "0" (some "data"),
        FLine.auto, FLine.comment "# tail"] ∧
      ¬ iterLines
        [FLine.mount "b" "/base" "nullfs" "ro" "0" "0" (some "iocage-auto")]
        [FLine.mount "a" "/x" "nullfs" "rw" "0" "0" (some "data"),
          FLine.auto, FLine.comment "# tail"] = [] ∧
      ((iterLines
        [FLine.mount "b" "/base" "nullfs" "ro" "0" "0" (some "iocage-auto")]
        [FLine.mount "a" "/x" "nullfs" "rw" "0" "0" (some "data"),
          FLine.auto, FLine.comment "# tail"]).head?.all
        fun m => (destinationOf m).isSome) = true) ∧
    (∃ st, parseLines
        [FLine.mount "b" "/base" "nullfs" "ro" "0" "0" (some "iocage-auto")]
        true (renderText
          [FLine.mount "b" "/base" "nullfs" "ro" "0" "0" (some "iocage-auto")]
          [FLine.mount "a" "/x" "nullfs" "rw" "0" "0" (some "data"),
            FLine.auto, FLine.comment "# tail"]) = Except.ok st ∧
      renderText
        [FLine.mount "b" "/base" "nullfs" "ro" "0" "0" (some "iocage-auto")]
        st.lines = renderText
          [FLine.mount "b" "/base" "nullfs" "ro" "0" "0" (some "iocage-auto")]
          [FLine.mount "a" "/x" "nullfs" "rw" "0" "0" (some "data"),
            FLine.auto, FLine.comment "# tail"] ∧
      ([FLine.mount "a" "/x" "nullfs" "rw" "0" "0" (some "data"),
          FLine.auto, FLine.comment "# tail"].any isAuto = true →
        ¬ [FLine.mount "b" "/base" "nullfs" "ro" "0" "0"
            (some "iocage-auto")] = [] →
        st.lines = [FLine.mount "a" "/x" "nullfs" "rw" "0" "0" (some "data"),
          FLine.auto, FLine.comment "# tail"])) :=
  ⟨⟨by decide, by decide, by decide, by decide⟩,
    c5_fstab_roundtrip.1 _ _ (by decide) (by decide) (by decide) (by decide)⟩

/-- C6 counterexample: three well-formed mount lines where the second and
third share the destination `/y`.  The claim says every duplicated pair is
detected and logged; the parse stores all three lines but records no
conflict at all, because the duplicate check only ever compares against
the first effective entry. -/
theorem c6_duplicate_detection_counterexample :
    parseLines [] true
        "a\t/x\tnullfs\tro\t0\t0\nb\t/y\tnullfs\tro\t0\t0\nc\t/y\tnullfs\tro\t0\t0" =
      Except.ok ⟨[FLine.mount "a" "/x" "nullfs" "ro" "0" "0" none,
        FLine.mount "b" "/y" "nullfs" "ro" "0" "0" none,
        FLine.mount "c" "/y" "nullfs" "ro" "0" "0" none], false, [], 0⟩ := by
  rfl

/-- C6 amended: the duplicate check `__contains__` returns inside both
branches of its loop's first iteration, so it only ever compares the new
destination against the *first* effective line (raising KeyError when
that line has no destination); a duplicate of the first entry is logged
as a conflict yet both lines are still stored in order (warn, never
reject), as the two-line instance shows. -/
theorem c6_duplicate_detection_amended :
    (∀ (B stored : List FLine) (d : String),
      fstabContains B stored d =
        (match (iterLines B stored).head? with
         | none => Except.ok false
         | some m =>
           match destinationOf m with
           | some d0 => Except.ok (d == d0)
           | none => Except.error (CErr.keyError "destination"))) ∧
    parseLines [] true
        "a\t/x\tnullfs\tro\t0\t0\nb\t/x\tnullfs\tro\t0\t0" =
      Except.ok ⟨[FLine.mount "a" "/x" "nullfs" "ro" "0" "0" none,
        FLine.mount "b" "/x" "nullfs" "ro" "0" "0" none], false, ["/x"],
        0⟩ := by
  constructor
  · intro B stored d
    unfold fstabContains
    cases hi : iterLines B stored with
    | nil => rfl
    | cons m r =>
      cases hd0 : destinationOf m with
      | none => rfl
      | some d0 => rfl
  · rfl

end LibIocage
